import Mathlib

/-!
Verification development for the gossip dissemination node.

The definitions below are a shallow embedding of the C sources:
  src/serialization.c  (envelope codec)
  src/utils.c          (SHA-256, proof-of-work check)
  src/member.c         (bounded membership view)
  src/node.c           (seen-set, gossip store, handlers, relay)

Machine integers are modelled as Nat / Int with explicit `% 2 ^ 32`
or `% 2 ^ 64` where overflow matters.  C strings are modelled as
`List Char` / `String` (a C string is its byte content up to NUL).
Fallible C functions returning -1/NULL are modelled with `Option`.
-/

set_option maxRecDepth 100000

namespace Gossip

/-- Capacity constants from header/message.h and header/node.h. -/
def ID_LEN : Nat := 128

/-- msg_type capacity, header/message.h. -/
def MSG_TYPE_LEN : Nat := 32

/-- sender_id capacity (NODE_ID_LEN), header/message.h. -/
def NODE_ID_LEN : Nat := 64

/-- sender_addr capacity, header/message.h. -/
def ADDR_STR_LEN : Nat := 64

/-- payload capacity, header/message.h. -/
def MSG_BUF_SIZE : Nat := 8192

/-- Effective value of MAX_SERIALIZED_LEN in node.c: message.h defines it
as 10240 but serialization.h (included after it by node.h) redefines it
to 2048, and the last preprocessor definition wins in every translation
unit that includes node.h. -/
def MAX_SERIALIZED_LEN : Nat := 2048

/-- seen-set ring capacity, header/node.h. -/
def MAX_SEEN_MSGS : Nat := 2000

/-- gossip-store ring capacity, header/node.h. -/
def MAX_STORED_GOSSIP : Nat := 500

/-- membership view array capacity, header/member.h. -/
def MAX_PEERS : Nat := 64

/-- The wire envelope, gossip_msg_t in header/message.h.  `version` and
`ttl` are C ints (modelled as unbounded Int; in-range values are what the
program produces), `timestamp_ms` is uint64_t. -/
structure gossip_msg_t where
  version : Int
  msg_id : String
  msg_type : String
  sender_id : String
  sender_addr : String
  timestamp_ms : Nat
  ttl : Int
  payload : String
deriving DecidableEq, Repr

/-- Character constants used by the codec (by code point, to keep the
source free of delicate literals): double quote. -/
def qC : Char := Char.ofNat 34

/-- Minus sign. -/
def minusC : Char := Char.ofNat 45

/-- Plus sign. -/
def plusC : Char := Char.ofNat 43

/-- Opening brace. -/
def lbC : Char := Char.ofNat 123

/-- Closing brace. -/
def rbC : Char := Char.ofNat 125

/-- Decimal digit to character, as printf %d / %lu produce. -/
def digitChar (d : Nat) : Char := Char.ofNat (48 + d)

/-- Decimal rendering worker (structural recursion on a fuel bound so
that the kernel can evaluate it; `fuel > n` always suffices). -/
def natDigitsAux : Nat → Nat → List Char → List Char
  | 0, _, acc => acc
  | fuel + 1, n, acc =>
    if n < 10 then digitChar n :: acc
    else natDigitsAux fuel (n / 10) (digitChar (n % 10) :: acc)

/-- Decimal digits of a natural number, most significant first:
the exact output of printf for a nonnegative value. -/
def natDigits (n : Nat) : List Char := natDigitsAux (n + 1) n []

/-- printf %d rendering of a C int value. -/
def intChars (i : Int) : List Char :=
  if i < 0 then minusC :: natDigits i.natAbs else natDigits i.toNat

/-- serialize_message (src/serialization.c): one JSON object with fixed
key order; the payload is inlined verbatim.  Modelled as the full
(untruncated) snprintf output; callers that pass a bounded buffer
truncate with `List.take`. -/
def serialize_message (m : gossip_msg_t) : List Char :=
  ("\x7b\"version\":").toList ++ intChars m.version
  ++ (",\"msg_id\":\"").toList ++ m.msg_id.toList
  ++ ("\",\"msg_type\":\"").toList ++ m.msg_type.toList
  ++ ("\",\"sender_id\":\"").toList ++ m.sender_id.toList
  ++ ("\",\"sender_addr\":\"").toList ++ m.sender_addr.toList
  ++ ("\",\"timestamp_ms\":").toList ++ natDigits m.timestamp_ms
  ++ (",\"ttl\":").toList ++ intChars m.ttl
  ++ (",\"payload\":").toList ++ m.payload.toList
  ++ [rbC]

/-- Whitespace as recognized by scanf numeric conversions (isspace). -/
def isSpaceC (c : Char) : Bool :=
  c == ' ' || c == Char.ofNat 9 || c == Char.ofNat 10 ||
  c == Char.ofNat 11 || c == Char.ofNat 12 || c == Char.ofNat 13

/-- ASCII decimal digit test. -/
def isDigitC (c : Char) : Bool := 48 ≤ c.toNat && c.toNat ≤ 57

/-- Value of a digit character. -/
def digitVal (c : Char) : Nat := c.toNat - 48

/-- Value of a digit string, most significant first. -/
def digitsVal (l : List Char) : Nat := l.foldl (fun a c => a * 10 + digitVal c) 0

/-- Match the literal characters of a scanf format (and of strstr-style
prefixes); returns the rest of the input on success. -/
def parseLit : List Char → List Char → Option (List Char)
  | [], l => some l
  | _ :: _, [] => none
  | p :: ps, c :: cs => if c = p then parseLit ps cs else none

/-- scanf %d: skip whitespace, optional sign, at least one digit.
Overflow of the C int is never exercised by the program's own output;
the value is modelled exactly. -/
def scanInt (l : List Char) : Option (Int × List Char) :=
  match l.dropWhile isSpaceC with
  | [] => none
  | c :: rest =>
    if c = minusC then
      match rest.takeWhile isDigitC with
      | [] => none
      | ds => some (-(digitsVal ds : Int), rest.drop ds.length)
    else if c = plusC then
      match rest.takeWhile isDigitC with
      | [] => none
      | ds => some ((digitsVal ds : Int), rest.drop ds.length)
    else
      match (c :: rest).takeWhile isDigitC with
      | [] => none
      | ds => some ((digitsVal ds : Int), (c :: rest).drop ds.length)

/-- scanf %llu: like %d but the stored value is the 64-bit unsigned
conversion (strtoull semantics: a leading minus negates modulo 2^64). -/
def scanU64 (l : List Char) : Option (Nat × List Char) :=
  match scanInt l with
  | none => none
  | some (v, rest) => some ((v % (2 ^ 64 : Nat)).toNat, rest)

/-- scanf %N[^"]: up to `cap` characters different from a double quote,
at least one; no whitespace skip. -/
def scanStr (cap : Nat) (l : List Char) : Option (List Char × List Char) :=
  match (l.takeWhile (fun c => c ≠ qC)).take cap with
  | [] => none
  | tk => some (tk, l.drop tk.length)

/-- strstr: the input after the first occurrence of `pat`, if any. -/
def strstrAfter (pat : List Char) : List Char → Option (List Char)
  | [] => if pat.isPrefixOf ([] : List Char) then some [] else none
  | c :: t =>
    if pat.isPrefixOf (c :: t) then some ((c :: t).drop pat.length)
    else strstrAfter pat t

/-- The payload key searched by deserialize_message. -/
def payloadKey : List Char := ("\"payload\":").toList

/-- Trailing-whitespace trim of the decoded payload
(newline, carriage return, space). -/
def trimTrail (l : List Char) : List Char :=
  (l.reverse.dropWhile (fun c => c == Char.ofNat 10 || c == Char.ofNat 13 || c == ' ')).reverse

/-- Payload extraction of deserialize_message: everything after the first
occurrence of `"payload":` up to (excluding) the last closing brace of
the buffer, which must lie strictly after the key; truncated to
MSG_BUF_SIZE-1 bytes, then trailing whitespace is trimmed. -/
def extractPayload (buf : List Char) : Option (List Char) :=
  match strstrAfter payloadKey buf with
  | none => none
  | some rest =>
    let pre := rest.reverse.takeWhile (fun c => c ≠ rbC)
    if pre.length = rest.length then none          -- no brace after the key
    else
      let lastIdx := rest.length - 1 - pre.length  -- index of last brace
      if lastIdx = 0 then none                     -- brace not strictly after key
      else some (trimTrail ((rest.take lastIdx).take (MSG_BUF_SIZE - 1)))

/-- deserialize_message (src/serialization.c): sscanf of the seven scalar
fields in the fixed key order, then payload extraction on the whole
buffer.  Fails (C returns -1) when fewer than seven conversions succeed
or the payload key / closing brace is missing. -/
def deserialize_message (buf : List Char) : Option gossip_msg_t := do
  let r0 ← parseLit (("\x7b\"version\":").toList) buf
  let (ver, r1) ← scanInt r0
  let r2 ← parseLit ((",\"msg_id\":\"").toList) r1
  let (mid, r3) ← scanStr 127 r2
  let r4 ← parseLit (("\",\"msg_type\":\"").toList) r3
  let (mty, r5) ← scanStr 31 r4
  let r6 ← parseLit (("\",\"sender_id\":\"").toList) r5
  let (sid, r7) ← scanStr 63 r6
  let r8 ← parseLit (("\",\"sender_addr\":\"").toList) r7
  let (sad, r9) ← scanStr 63 r8
  let r10 ← parseLit (("\",\"timestamp_ms\":").toList) r9
  let (ts, r11) ← scanU64 r10
  let r12 ← parseLit ((",\"ttl\":").toList) r11
  let (ttlv, _) ← scanInt r12
  let pl ← extractPayload buf
  pure { version := ver, msg_id := String.mk mid, msg_type := String.mk mty,
         sender_id := String.mk sid, sender_addr := String.mk sad,
         timestamp_ms := ts, ttl := ttlv, payload := String.mk pl }

/-! ## SHA-256 and proof-of-work (src/utils.c)

The portable SHA-256 of utils.c, translated word for word; uint32
values are Nats kept below 2^32 by explicit reduction, exactly where
the C type system reduces them. -/

/-- 2^32, the uint32 modulus. -/
def M32 : Nat := 2 ^ 32

/-- ROTR32. -/
def rotr32 (x n : Nat) : Nat := (x >>> n) ||| ((x <<< (32 - n)) % M32)

/-- Bitwise complement of a uint32. -/
def not32 (x : Nat) : Nat := x ^^^ (M32 - 1)

/-- CH(e,f,g). -/
def ch32 (e f g : Nat) : Nat := (e &&& f) ^^^ (not32 e &&& g)

/-- MAJ(a,b,c). -/
def maj32 (a b c : Nat) : Nat := (a &&& b) ^^^ (a &&& c) ^^^ (b &&& c)

/-- EP0. -/
def ep0 (x : Nat) : Nat := rotr32 x 2 ^^^ rotr32 x 13 ^^^ rotr32 x 22

/-- EP1. -/
def ep1 (x : Nat) : Nat := rotr32 x 6 ^^^ rotr32 x 11 ^^^ rotr32 x 25

/-- SIG0. -/
def sig0 (x : Nat) : Nat := rotr32 x 7 ^^^ rotr32 x 18 ^^^ (x >>> 3)

/-- SIG1. -/
def sig1 (x : Nat) : Nat := rotr32 x 17 ^^^ rotr32 x 19 ^^^ (x >>> 10)

/-- The K256 round constants. -/
def K256 : List Nat :=
  [1116352408, 1899447441, 3049323471, 3921009573,
   961987163, 1508970993, 2453635748, 2870763221,
   3624381080, 310598401, 607225278, 1426881987,
   1925078388, 2162078206, 2614888103, 3248222580,
   3835390401, 4022224774, 264347078, 604807628,
   770255983, 1249150122, 1555081692, 1996064986,
   2554220882, 2821834349, 2952996808, 3210313671,
   3336571891, 3584528711, 113926993, 338241895,
   666307205, 773529912, 1294757372, 1396182291,
   1695183700, 1986661051, 2177026350, 2456956037,
   2730485921, 2820302411, 3259730800, 3345764771,
   3516065817, 3600352804, 4094571909, 275423344,
   430227734, 506948616, 659060556, 883997877,
   958139571, 1322822218, 1537002063, 1747873779,
   1955562222, 2024104815, 2227730452, 2361852424,
   2428436474, 2756734187, 3204031479, 3329325298]

/-- Working state of the compression function (the eight uint32 words). -/
structure Sha8 where
  a : Nat
  b : Nat
  c : Nat
  d : Nat
  e : Nat
  f : Nat
  g : Nat
  h : Nat
deriving DecidableEq, Repr

/-- Initial hash state (s256_init). -/
def sha256Init : Sha8 :=
  { a := 1779033703, b := 3144134277, c := 1013904242, d := 2773480762,
    e := 1359893119, f := 2600822924, g := 528734635, h := 1541459225 }

/-- The sixteen big-endian words of a 64-byte block. -/
def blockWords (blk : List Nat) : List Nat :=
  (List.range 16).map (fun i =>
    ((blk.getD (4 * i) 0) <<< 24) ||| ((blk.getD (4 * i + 1) 0) <<< 16) |||
    ((blk.getD (4 * i + 2) 0) <<< 8) ||| (blk.getD (4 * i + 3) 0))

/-- Message-schedule extension: words 16..63. -/
def schedW (blk : List Nat) : Array Nat :=
  (List.range 48).foldl
    (fun w _ =>
      w.push ((sig1 (w.getD (w.size - 2) 0) + w.getD (w.size - 7) 0 +
               sig0 (w.getD (w.size - 15) 0) + w.getD (w.size - 16) 0) % M32))
    (blockWords blk).toArray

/-- One round of the compression loop (the body of the i-loop in
s256_transform). -/
def shaRound (s : Sha8) (kw : Nat) : Sha8 :=
  let t1 := (s.h + ep1 s.e + ch32 s.e s.f s.g + kw) % M32
  let t2 := (ep0 s.a + maj32 s.a s.b s.c) % M32
  { a := (t1 + t2) % M32, b := s.a, c := s.b, d := s.c,
    e := (s.d + t1) % M32, f := s.e, g := s.f, h := s.g }

/-- s256_transform: 64 rounds over one block, then the feed-forward
addition into the chaining state. -/
def sha256Transform (s : Sha8) (blk : List Nat) : Sha8 :=
  let w := schedW blk
  let r := (List.range 64).foldl
    (fun st i => shaRound st ((K256.getD i 0 + w.getD i 0) % M32)) s
  { a := (s.a + r.a) % M32, b := (s.b + r.b) % M32, c := (s.c + r.c) % M32,
    d := (s.d + r.d) % M32, e := (s.e + r.e) % M32, f := (s.f + r.f) % M32,
    g := (s.g + r.g) % M32, h := (s.h + r.h) % M32 }

/-- Big-endian 8-byte encoding of the bit length (s256_final writes
data[56..63] this way). -/
def beBytes8 (n : Nat) : List Nat :=
  [(n >>> 56) % 256, (n >>> 48) % 256, (n >>> 40) % 256, (n >>> 32) % 256,
   (n >>> 24) % 256, (n >>> 16) % 256, (n >>> 8) % 256, n % 256]

/-- Standard SHA-256 padding, as performed by s256_update / s256_final:
append 0x80, zero-fill to 56 mod 64, then the 64-bit big-endian bit
length. -/
def padMsg (d : List Nat) : List Nat :=
  d ++ 128 :: List.replicate ((119 - d.length % 64) % 64) 0
    ++ beBytes8 (d.length * 8)

/-- Full SHA-256 of a byte string, producing the 32 digest bytes
(big-endian per word, as the s256_final output loop does). -/
def sha256Bytes (d : List Nat) : List Nat :=
  let padded := padMsg d
  let final := (List.range (padded.length / 64)).foldl
    (fun s i => sha256Transform s ((padded.drop (64 * i)).take 64)) sha256Init
  [final.a, final.b, final.c, final.d, final.e, final.f, final.g, final.h].foldr
    (fun w acc => (w >>> 24) % 256 :: (w >>> 16) % 256 :: (w >>> 8) % 256 :: w % 256 :: acc) []

/-- Lowercase hex digit, as snprintf %02x produces. -/
def hexChar (d : Nat) : Char :=
  if d < 10 then Char.ofNat (48 + d) else Char.ofNat (87 + d)

/-- Hex string (64 chars) of a 32-byte digest. -/
def hexOfBytes (bs : List Nat) : List Char :=
  bs.foldr (fun b acc => hexChar (b / 16) :: hexChar (b % 16) :: acc) []

/-- sha256_hex (src/utils.c): hash of node_id followed by the decimal
nonce.  The C routine stages the input in a 256-byte buffer through
snprintf, which truncates to 255 characters (`List.take 255`); node ids
in this program are at most NODE_ID_LEN-1 = 63 characters, so the
truncation never bites at any call site. -/
def sha256_hex (node_id : String) (nonce : Nat) : List Char :=
  hexOfBytes (sha256Bytes (((node_id.toList ++ natDigits nonce).take 255).map Char.toNat))

/-- pow_check (src/utils.c): the first `difficulty` hex characters of
the digest must all be the character '0'.  The C loop reads hex[i]; the
default below is the NUL terminator that sits at index 64. -/
def pow_check (node_id : String) (nonce : Nat) (difficulty : Int) : Bool :=
  let hex := sha256_hex node_id nonce
  (List.range difficulty.toNat).all (fun i => hex.getD i (Char.ofNat 0) == Char.ofNat 48)

/-! ## Membership view (src/member.c) -/

/-- A socket address: the (s_addr, sin_port) pair that member.c compares.
`ip` is the 32-bit address value (dotted quad a.b.c.d stored as
a<<24 | b<<16 | c<<8 | d for rendering purposes), `port` the 16-bit
port. -/
structure sockaddr_in where
  ip : Nat
  port : Nat
deriving DecidableEq, Repr, Inhabited

/-- peer_info_t: address plus liveness timestamp. -/
structure peer_info_t where
  addr : sockaddr_in
  last_seen : Nat
deriving DecidableEq, Repr, Inhabited

/-- membership_t: the first `count` cells of the fixed array, in order,
plus the capacity `limit` (a C int, possibly negative). -/
structure membership_t where
  list : List peer_info_t
  limit : Int
deriving DecidableEq, Repr

/-- membership_init: count = 0 and limit clamped from above to
MAX_PEERS (no clamping from below). -/
def membership_init (limit : Int) : membership_t :=
  { list := [], limit := if limit > (MAX_PEERS : Int) then (MAX_PEERS : Int) else limit }

/-- Refresh the `last_seen` of the first entry carrying `addr`. -/
def touchFirst (addr : sockaddr_in) (now : Nat) : List peer_info_t → List peer_info_t
  | [] => []
  | p :: t =>
    if p.addr = addr then { p with last_seen := now } :: t
    else p :: touchFirst addr now t

/-- membership_add: refresh an existing entry (return 0), append when
below the limit (return 1), otherwise reject (return -1). -/
def membership_add (m : membership_t) (addr : sockaddr_in) (now : Nat) : membership_t × Int :=
  if m.list.any (fun p => p.addr == addr) then
    ({ m with list := touchFirst addr now m.list }, 0)
  else if (m.list.length : Int) < m.limit then
    ({ m with list := m.list ++ [{ addr := addr, last_seen := now }] }, 1)
  else (m, -1)

/-- Swap two positions of a list (the index array of the shuffle). -/
def lswap (l : List Nat) (i j : Nat) : List Nat :=
  match l.get? i, l.get? j with
  | some x, some y => (l.set i y).set j x
  | _, _ => l

/-- The Fisher-Yates loop of membership_get_random: `i` runs downward
from count-1 to 1, `k` counts the successive rand() draws (`randv k`
models the k-th value returned by rand()). -/
def fyLoop (randv : Nat → Nat) : Nat → List Nat → Nat → List Nat
  | _, idx, 0 => idx
  | k, idx, i + 1 => fyLoop randv (k + 1) (lswap idx (i + 1) (randv k % (i + 2))) i

/-- Selection pass of membership_get_random: walk the shuffled index
array, skip the excluded address, stop when `cnt` targets are found. -/
def selLoop (l : List peer_info_t) (cnt : Int) (exclude : Option sockaddr_in) :
    List Nat → Nat → List sockaddr_in
  | [], _ => []
  | i :: rest, found =>
    if (found : Int) < cnt then
      let cand := (l.getD i default).addr
      match exclude with
      | some e =>
        if cand.port = e.port ∧ cand.ip = e.ip then selLoop l cnt exclude rest found
        else cand :: selLoop l cnt exclude rest (found + 1)
      | none => cand :: selLoop l cnt exclude rest (found + 1)
    else []

/-- membership_get_random (src/member.c): shuffle the index array with
Fisher-Yates driven by rand(), then collect up to `cnt` addresses
distinct from `exclude`. -/
def membership_get_random (randv : Nat → Nat) (m : membership_t) (cnt : Int)
    (exclude : Option sockaddr_in) : List sockaddr_in :=
  if m.list.length = 0 then []
  else selLoop m.list cnt exclude
    (fyLoop randv 0 (List.range m.list.length) (m.list.length - 1)) 0

/-- Unsigned 64-bit difference now - last, as the expiry test computes it. -/
def age64 (now last : Nat) : Nat := ((2 ^ 64 + now) - last) % 2 ^ 64

/-- The removal loop of membership_remove_expired: on expiry the entry is
overwritten with the last entry and the count shrinks (index stays);
otherwise the index advances.  Fuel-based for kernel evaluation; the
fuel 2*length+1 always suffices. -/
def expireAux (now tmo : Nat) : Nat → List peer_info_t → Nat → List peer_info_t
  | 0, l, _ => l
  | fuel + 1, l, i =>
    if i < l.length then
      if age64 now ((l.getD i default).last_seen) > tmo then
        expireAux now tmo fuel ((l.set i (l.getD (l.length - 1) default)).dropLast) i
      else expireAux now tmo fuel l (i + 1)
    else l

/-- membership_remove_expired (src/node.c): drop every peer older than
peer_timeout seconds; `tmo` is (uint64_t)peer_timeout * 1000. -/
def membership_remove_expired (now tmo : Nat) (m : membership_t) : membership_t :=
  { m with list := expireAux now tmo (2 * m.list.length + 1) m.list 0 }

/-! ## Node state and handlers (src/node.c) -/

/-- node_t: the fields of the node that the handlers read and write.
`seen_ids` always has length MAX_SEEN_MSGS and `gossip_store` length
MAX_STORED_GOSSIP (the C arrays, zero-initialized by node_init's
memset: all-zero bytes are empty strings). -/
structure node_t where
  node_id : String
  self_addr : String
  fanout : Int
  ttl : Int
  pow_difficulty : Int
  membership : membership_t
  seen_ids : List String
  seen_count : Nat
  gossip_store : List (String × String)
  gossip_store_count : Nat
deriving DecidableEq, Repr

/-- The zero-initialized rings and counters of node_init. -/
def node_init (node_id self_addr : String) (fanout ttl pow_difficulty peer_limit : Int) : node_t :=
  { node_id := node_id, self_addr := self_addr, fanout := fanout, ttl := ttl,
    pow_difficulty := pow_difficulty,
    membership := membership_init peer_limit,
    seen_ids := List.replicate MAX_SEEN_MSGS "",
    seen_count := 0,
    gossip_store := List.replicate MAX_STORED_GOSSIP ("", ""),
    gossip_store_count := 0 }

/-- The seen-set scan shared by mark_seen and handle_ihave: compare
msg_id against seen_ids[i % MAX_SEEN_MSGS] for i below
min(seen_count, MAX_SEEN_MSGS). -/
def seen_lookup (n : node_t) (msg_id : String) : Bool :=
  (List.range (min n.seen_count MAX_SEEN_MSGS)).any
    (fun i => n.seen_ids.getD (i % MAX_SEEN_MSGS) "" == msg_id)

/-- mark_seen (src/node.c): returns true when already seen; otherwise
writes the id at seen_count % MAX_SEEN_MSGS (evicting the previous
occupant of that ring slot) and increments seen_count. -/
def mark_seen (n : node_t) (msg_id : String) : node_t × Bool :=
  if seen_lookup n msg_id then (n, true)
  else
    ({ n with seen_ids := n.seen_ids.set (n.seen_count % MAX_SEEN_MSGS) msg_id,
              seen_count := n.seen_count + 1 }, false)

/-- store_gossip (src/node.c): write (msg_id, serialized form) at ring
slot gossip_store_count % MAX_STORED_GOSSIP.  strncpy copies at most
ID_LEN-1 = 127 id characters; serialize_message writes into a
MAX_SERIALIZED_LEN buffer, truncating at 2047 characters. -/
def store_gossip (n : node_t) (msg : gossip_msg_t) : node_t :=
  { n with
    gossip_store := n.gossip_store.set (n.gossip_store_count % MAX_STORED_GOSSIP)
      (String.mk (msg.msg_id.toList.take (ID_LEN - 1)),
       String.mk ((serialize_message msg).take (MAX_SERIALIZED_LEN - 1))),
    gossip_store_count := n.gossip_store_count + 1 }

/-- find_stored (src/node.c): first matching entry among the first
min(gossip_store_count, MAX_STORED_GOSSIP) array cells. -/
def find_stored (n : node_t) (msg_id : String) : Option (String × String) :=
  (List.range (min n.gossip_store_count MAX_STORED_GOSSIP)).findSome?
    (fun i =>
      let e := n.gossip_store.getD i ("", "")
      if e.1 == msg_id then some e else none)

/-- relay_gossip (src/node.c): no-op when ttl ≤ 0; otherwise send a copy
with ttl decremented by one to sample(fanout, exclude).  Sends are
(destination, envelope) pairs; send_msg serializes the envelope into a
MAX_SERIALIZED_LEN buffer on the wire. -/
def relay_gossip (randv : Nat → Nat) (n : node_t) (msg : gossip_msg_t)
    (exclude : Option sockaddr_in) : List (sockaddr_in × gossip_msg_t) :=
  if msg.ttl ≤ 0 then []
  else
    let r := { msg with ttl := msg.ttl - 1 }
    (membership_get_random randv n.membership n.fanout exclude).map (fun a => (a, r))

/-- handle_gossip (src/node.c): drop when mark_seen finds the id;
otherwise (the "new" branch) log RECEIVE, store the serialized form, and
relay with the sender excluded.  The Bool of the result records whether
the new branch ran. -/
def handle_gossip (randv : Nat → Nat) (n : node_t) (msg : gossip_msg_t)
    (sender : sockaddr_in) : node_t × Bool × List (sockaddr_in × gossip_msg_t) :=
  match mark_seen n msg.msg_id with
  | (n1, true) => (n1, false, [])
  | (n1, false) =>
    let n2 := store_gossip n1 msg
    (n2, true, relay_gossip randv n2 msg (some sender))

/-- The listener pipeline for a GOSSIP datagram: decode, then dispatch
to handle_gossip; undecodable datagrams are dropped. -/
def listen_gossip (randv : Nat → Nat) (n : node_t) (raw : List Char)
    (sender : sockaddr_in) : node_t × Bool × List (sockaddr_in × gossip_msg_t) :=
  match deserialize_message raw with
  | none => (n, false, [])
  | some msg => handle_gossip randv n msg sender

/-- The id-array scanner shared by handle_ihave and handle_iwant: skip
spaces, commas and newlines; stop at ']' or end of string; a quote opens
an id of at most ID_LEN-1 characters (a closing quote is skipped); any
other character is skipped.  Fuel-based (input length + 1 suffices). -/
def idLoopAux : Nat → List Char → List String
  | 0, _ => []
  | fuel + 1, l =>
    match l.dropWhile (fun c => c == ' ' || c == ',' || c == Char.ofNat 10) with
    | [] => []
    | c :: rest =>
      if c = Char.ofNat 93 then []
      else if c = qC then
        let idc := (rest.takeWhile (fun c2 => c2 ≠ qC)).take (ID_LEN - 1)
        let rest2 := rest.drop idc.length
        let rest3 := match rest2 with
                     | c2 :: t2 => if c2 = qC then t2 else rest2
                     | [] => rest2
        String.mk idc :: idLoopAux fuel rest3
      else idLoopAux fuel rest

/-- Locate the ids array of an IHAVE/IWANT payload: strstr for the key
"ids": then strchr for the opening bracket, then scan the elements. -/
def parsePayloadIds (payload : List Char) : Option (List String) :=
  match strstrAfter (("\"ids\":").toList) payload with
  | none => none
  | some afterKey =>
    match afterKey.dropWhile (fun c => c ≠ Char.ofNat 91) with
    | [] => none
    | _ :: arr => some (idLoopAux (arr.length + 1) arr)

/-- strncat into an MSG_BUF_SIZE buffer: append at most
MSG_BUF_SIZE - 1 - strlen(dst) characters. -/
def strncatB (dst src : List Char) : List Char :=
  dst ++ src.take (MSG_BUF_SIZE - 1 - dst.length)

/-- The want_ids accumulation of handle_ihave: comma-join the quoted
missing ids under strncat's buffer bound. -/
def buildWantIds (want : List String) : List Char :=
  (want.foldl
    (fun (p : List Char × Nat) id =>
      let acc1 := if p.2 > 0 then strncatB p.1 [','] else p.1
      (strncatB acc1 (qC :: id.toList ++ [qC]), p.2 + 1))
    ([], 0)).1

/-- handle_ihave (src/node.c): parse the advertised ids, filter out the
already-seen ones, and when any remain send one IWANT back to the
sender listing them.  `now` is the current_time_ms value used for the
IWANT msg_id and timestamp. -/
def handle_ihave (n : node_t) (msg : gossip_msg_t) (sender : sockaddr_in)
    (now : Nat) : List (sockaddr_in × gossip_msg_t) :=
  match parsePayloadIds msg.payload.toList with
  | none => []
  | some ids =>
    let want := ids.filter (fun id => !(seen_lookup n id))
    if want.isEmpty then []
    else
      [(sender,
        { version := 1,
          msg_id := String.mk ((("IWANT_").toList ++ natDigits now).take (ID_LEN - 1)),
          msg_type := "IWANT",
          sender_id := n.node_id,
          sender_addr := n.self_addr,
          timestamp_ms := now,
          ttl := 1,
          payload := String.mk ((("\x7b \"ids\": [").toList ++ buildWantIds want
            ++ ("] \x7d").toList).take (MSG_BUF_SIZE - 1)) })]

/-- handle_iwant (src/node.c): parse the requested ids and re-send the
stored serialized bytes verbatim for each id found in the gossip store;
ids not found produce nothing. -/
def handle_iwant (n : node_t) (msg : gossip_msg_t) (sender : sockaddr_in) :
    List (sockaddr_in × String) :=
  match parsePayloadIds msg.payload.toList with
  | none => []
  | some ids =>
    ids.filterMap (fun id => (find_stored n id).map (fun e => (sender, e.2)))

/-- strtoul(p, NULL, 10) on a C string: skip whitespace, optional sign
(a minus negates modulo 2^64 for unsigned long), digits; no digits
yields 0. -/
def strtoulModel (l : List Char) : Nat :=
  match l.dropWhile isSpaceC with
  | [] => 0
  | c :: rest =>
    if c = minusC then
      (((2 ^ 64 : Nat) - digitsVal (rest.takeWhile isDigitC) % 2 ^ 64) % 2 ^ 64)
    else if c = plusC then digitsVal (rest.takeWhile isDigitC) % 2 ^ 64
    else digitsVal ((c :: rest).takeWhile isDigitC) % 2 ^ 64

/-- node_verify_hello_pow (src/node.c): trivially true when PoW is
disabled; otherwise extract the nonce following the "nonce": key (first
skipping blanks), and recompute pow_check over the claimed sender_id.
A missing key rejects. -/
def node_verify_hello_pow (n : node_t) (msg : gossip_msg_t) : Bool :=
  if n.pow_difficulty ≤ 0 then true
  else
    match strstrAfter (("\"nonce\":").toList) msg.payload.toList with
    | none => false
    | some p0 =>
      pow_check msg.sender_id (strtoulModel (p0.dropWhile (fun c => c == ' ')))
        n.pow_difficulty

/-- Dotted-quad and port rendering of an address, as inet_ntop and
ntohs produce for the peers list. -/
def addrChars (a : sockaddr_in) : List Char :=
  natDigits ((a.ip >>> 24) % 256) ++ ("." ).toList ++ natDigits ((a.ip >>> 16) % 256)
  ++ (".").toList ++ natDigits ((a.ip >>> 8) % 256) ++ (".").toList
  ++ natDigits (a.ip % 256) ++ (":").toList ++ natDigits (a.port % 65536)

/-- One {"addr":"ip:port"} element of the peers array (with the comma
the C loop appends between elements). -/
def peerEntry (l : List peer_info_t) (i : Nat) : List Char :=
  ("\x7b\"addr\":\"").toList ++ addrChars ((l.getD i default).addr)
  ++ ("\"\x7d").toList ++ (if i + 1 < l.length then (",").toList else [])

/-- The peers JSON array of handle_get_peers, built with strncat into an
MSG_BUF_SIZE buffer. -/
def buildPeersJson (l : List peer_info_t) : List Char :=
  strncatB
    ((List.range l.length).foldl (fun acc i => strncatB acc (peerEntry l i))
      (("[").toList))
    (("]").toList)

/-- handle_get_peers (src/node.c): reply to the sender with a PEERS_LIST
carrying the current view. -/
def handle_get_peers (n : node_t) (sender : sockaddr_in) (now : Nat) :
    List (sockaddr_in × gossip_msg_t) :=
  [(sender,
    { version := 1,
      msg_id := String.mk ((("PEERS_").toList ++ natDigits now).take (ID_LEN - 1)),
      msg_type := "PEERS_LIST",
      sender_id := n.node_id,
      sender_addr := n.self_addr,
      timestamp_ms := now,
      ttl := 1,
      payload := String.mk ((("\x7b \"peers\": ").toList ++ buildPeersJson n.membership.list
        ++ (" \x7d").toList).take (MSG_BUF_SIZE - 1)) })]

/-- handle_hello (src/node.c): verify the PoW credential; on failure
drop (no membership change, no sends); on success add the sender to the
view and reply with the peer list (handle_get_peers reads the view
after the addition). -/
def handle_hello (n : node_t) (msg : gossip_msg_t) (sender : sockaddr_in)
    (now : Nat) : membership_t × List (sockaddr_in × gossip_msg_t) :=
  if !(node_verify_hello_pow n msg) then (n.membership, [])
  else
    let m2 := (membership_add n.membership sender now).1
    (m2, handle_get_peers { n with membership := m2 } sender now)

/-! ## Definitions used by the proofs -/

/-- No occurrence of `pat` begins inside `A` when `A ++ R` is scanned. -/
def NoOccIn (pat A R : List Char) : Prop :=
  ∀ j < A.length, ¬ pat.isPrefixOf ((A ++ R).drop j)

/-- Decidable certificate that every position of the literal `L` refutes
`pat` within `L` itself, whatever follows. -/
def litSelfRefutes (pat L : List Char) : Bool :=
  (List.range L.length).all (fun j =>
    (List.range pat.length).any (fun k =>
      decide (j + k < L.length) && !(L.getD (j + k) qC == pat.getD k qC)))

/-- Everything serialize_message emits before the "payload": key. -/
def serPrefix (m : gossip_msg_t) : List Char :=
  ("\x7b\"version\":").toList ++ intChars m.version
  ++ (",\"msg_id\":\"").toList ++ m.msg_id.toList
  ++ ("\",\"msg_type\":\"").toList ++ m.msg_type.toList
  ++ ("\",\"sender_id\":\"").toList ++ m.sender_id.toList
  ++ ("\",\"sender_addr\":\"").toList ++ m.sender_addr.toList
  ++ ("\",\"timestamp_ms\":").toList ++ natDigits m.timestamp_ms
  ++ (",\"ttl\":").toList ++ intChars m.ttl ++ [',']

/-- The membership invariant of the spec: pairwise-distinct addresses,
count within limit, limit within MAX_PEERS. -/
def membershipInv (m : membership_t) : Prop :=
  (m.list.map (fun p => p.addr)).Nodup ∧
  (m.list.length : Int) ≤ m.limit ∧ m.limit ≤ (MAX_PEERS : Int)

/-- The cells of the gossip store that find_stored scans. -/
def activeStore (n : node_t) : List (String × String) :=
  (List.range (min n.gossip_store_count MAX_STORED_GOSSIP)).map
    (fun i => n.gossip_store.getD i ("", ""))

/-- A node state whose raw gossip datagram carries ttl = -1, as stored
by the listener pipeline. -/
def rawNegTtl : List Char :=
  ("\x7b\"version\":1,\"msg_id\":\"m1\",\"msg_type\":\"GOSSIP\",\"sender_id\":\"s\",\"sender_addr\":\"1.2.3.4:5\",\"timestamp_ms\":0,\"ttl\":-1,\"payload\":\x7b\x7d\x7d").toList

def cnodeNeg : node_t :=
  (listen_gossip (fun _ => 0) (node_init "u" "127.0.0.1:9000" 3 5 0 20)
    rawNegTtl { ip := 1, port := 1 }).1

def iwantReq : gossip_msg_t :=
  { version := 1, msg_id := "w1", msg_type := "IWANT", sender_id := "s2",
    sender_addr := "5.6.7.8:9", timestamp_ms := 0, ttl := 1,
    payload := "\x7b \"ids\": [\"m1\"] \x7d" }

/-- A 62-character alphabet for generating distinct short msg_ids. -/
def abc62 : List Char :=
  ("abcdefghijklmnopqrstuvwxyz0123456789ABCDEFGHIJKLMNOPQRSTUVWXYZ").toList

/-- Two-character msg_id number n (injective below 62 * 62 = 3844). -/
def cid (n : Nat) : String :=
  String.mk [abc62.getD (n / 62) 'x', abc62.getD (n % 62) 'x']

/-- A minimal GOSSIP envelope carrying a given msg_id (ttl 0, so relays
are no-ops). -/
def gmsg (id : String) : gossip_msg_t :=
  { version := 1, msg_id := id, msg_type := "GOSSIP", sender_id := "s",
    sender_addr := "1.2.3.4:5", timestamp_ms := 0, ttl := 0, payload := "p" }

def rv0 : Nat → Nat := fun _ => 0

def s0node : node_t := node_init "u" "127.0.0.1:9000" 3 5 0 20

def sAddr : sockaddr_in := { ip := 1, port := 1 }

/-- Iterate handle_gossip over a list of incoming gossip datagrams. -/
def run_gossips (randv : Nat → Nat) : node_t → List (gossip_msg_t × sockaddr_in) → node_t
  | n, [] => n
  | n, p :: rest => run_gossips randv (handle_gossip randv n p.1 p.2).1 rest

/-- The first n of the 2000 distinct filler gossip messages. -/
def traceN (n : Nat) : List (gossip_msg_t × sockaddr_in) :=
  (List.range n).map (fun i => (gmsg (cid i), sAddr))

/-- State after the victim id (cid 2024) has been received once. -/
def s1node : node_t := (handle_gossip rv0 s0node (gmsg (cid 2024)) sAddr).1
/-- Seen-slot invariant: the id sits in ring slot c0 % MAX_SEEN_MSGS and
the counter has passed c0. -/
def seenHolds (c0 : Nat) (id : String) (n : node_t) : Prop :=
  n.seen_ids.getD (c0 % MAX_SEEN_MSGS) "" = id ∧ c0 < n.seen_count ∧
  n.seen_ids.length = MAX_SEEN_MSGS
/-- Ring content after the victim insert and n filler inserts. -/
def seenAt (n k : Nat) : String :=
  if k = 0 then (if n ≤ 1999 then cid 2024 else cid 1999)
  else if k ≤ n then cid (k - 1) else ""

def m5 : gossip_msg_t :=
  { version := 1, msg_id := "m1", msg_type := "GOSSIP", sender_id := "s1",
    sender_addr := "1.2.3.4:5", timestamp_ms := 7, ttl := 3, payload := "p" }

def m5sp : gossip_msg_t :=
  { version := 1, msg_id := "m1", msg_type := "GOSSIP", sender_id := "s1",
    sender_addr := "1.2.3.4:5", timestamp_ms := 7, ttl := 3, payload := "p " }
/-- Comma-prefixed quoted join (continuation form of the ids array). -/
def joinQsep : List String → List Char
  | [] => []
  | i :: is => ',' :: qC :: (i.toList ++ qC :: joinQsep is)

/-- Comma-separated quoted join of an ids list, as built by strncat in
handle_ihave when nothing is truncated. -/
def joinQ : List String → List Char
  | [] => []
  | i :: is => qC :: (i.toList ++ qC :: joinQsep is)
def ihaveTwo : gossip_msg_t :=
  { version := 1, msg_id := "h1", msg_type := "IHAVE", sender_id := "s9",
    sender_addr := "9.9.9.9:9", timestamp_ms := 0, ttl := 1,
    payload := "\x7b \"ids\": [\"m1\",\"m2\"] \x7d" }

/-- An IHAVE advertising a single id of 130 characters, 3 beyond the
ID_LEN - 1 = 127 cap of the id scanner. -/
def ihave130 : gossip_msg_t :=
  { version := 1, msg_id := "h2", msg_type := "IHAVE", sender_id := "s9",
    sender_addr := "9.9.9.9:9", timestamp_ms := 0, ttl := 1,
    payload := String.mk ((("\x7b \"ids\": [\"").toList)
      ++ List.replicate 130 'a' ++ (("\"] \x7d").toList)) }

/-! ## Theorems -/

/-- Fuel irrelevance for the decimal renderer. -/
theorem natDigitsAux_fuel (n : Nat) : ∀ f₁ f₂ acc, n < f₁ → n < f₂ →
    natDigitsAux f₁ n acc = natDigitsAux f₂ n acc := by
  induction n using Nat.strong_induction_on with
  | _ n ih =>
    intro f₁ f₂ acc h₁ h₂
    match f₁, h₁ with
    | f₁ + 1, h₁ =>
    match f₂, h₂ with
    | f₂ + 1, h₂ =>
    simp only [natDigitsAux]
    by_cases h10 : n < 10
    · simp [h10]
    · simp only [h10, if_false]
      have hd : n / 10 < n := Nat.div_lt_self (by omega) (by omega)
      exact ih (n / 10) hd f₁ f₂ _ (by omega) (by omega)

/-- Accumulator law for the decimal renderer. -/
theorem natDigitsAux_acc (n : Nat) : ∀ fuel acc, n < fuel →
    natDigitsAux fuel n acc = natDigits n ++ acc := by
  induction n using Nat.strong_induction_on with
  | _ n ih =>
    intro fuel acc h
    match fuel, h with
    | fuel + 1, h =>
    rw [natDigits]
    simp only [natDigitsAux]
    by_cases h10 : n < 10
    · simp [h10]
    · simp only [h10, if_false]
      have hd : n / 10 < n := Nat.div_lt_self (by omega) (by omega)
      rw [ih (n / 10) hd fuel _ (by omega),
          ih (n / 10) hd n _ (by omega),
          List.append_assoc]
      simp

/-- Unfolding equation for natDigits. -/
theorem natDigits_eq (n : Nat) :
    natDigits n = if n < 10 then [digitChar n]
                  else natDigits (n / 10) ++ [digitChar (n % 10)] := by
  rw [natDigits]
  simp only [natDigitsAux]
  by_cases h10 : n < 10
  · simp [h10]
  · simp only [h10, if_false]
    have hd : n / 10 < n := Nat.div_lt_self (by omega) (by omega)
    exact natDigitsAux_acc (n / 10) n _ (by omega)

theorem natDigits_ne_nil (n : Nat) : natDigits n ≠ [] := by
  rw [natDigits_eq]
  by_cases h10 : n < 10 <;> simp [h10]

theorem toNat_digitChar (d : Nat) (h : d < 10) : (digitChar d).toNat = 48 + d := by
  interval_cases d <;> decide

theorem isDigitC_digitChar (d : Nat) (h : d < 10) : isDigitC (digitChar d) = true := by
  interval_cases d <;> decide

theorem natDigits_all_digit (n : Nat) : ∀ c ∈ natDigits n, isDigitC c = true := by
  induction n using Nat.strong_induction_on with
  | _ n ih =>
    rw [natDigits_eq]
    by_cases h10 : n < 10
    · simp only [h10, if_true, List.mem_singleton]
      rintro c rfl
      exact isDigitC_digitChar n h10
    · simp only [h10, if_false, List.mem_append, List.mem_singleton]
      rintro c (hc | rfl)
      · exact ih (n / 10) (Nat.div_lt_self (by omega) (by omega)) c hc
      · exact isDigitC_digitChar (n % 10) (Nat.mod_lt _ (by omega))

theorem digitVal_digitChar (d : Nat) (h : d < 10) : digitVal (digitChar d) = d := by
  interval_cases d <;> decide

theorem digitsVal_append (l : List Char) (c : Char) :
    digitsVal (l ++ [c]) = 10 * digitsVal l + digitVal c := by
  simp [digitsVal, List.foldl_append]
  ring

theorem digitsVal_natDigits (n : Nat) : digitsVal (natDigits n) = n := by
  induction n using Nat.strong_induction_on with
  | _ n ih =>
    rw [natDigits_eq]
    by_cases h10 : n < 10
    · simp only [h10, if_true]
      simp [digitsVal, digitVal_digitChar n h10]
    · simp only [h10, if_false, digitsVal_append,
                 ih (n / 10) (Nat.div_lt_self (by omega) (by omega)),
                 digitVal_digitChar (n % 10) (Nat.mod_lt _ (by omega))]
      omega



/-- A digit character is none of the separator characters the scanners
look for. -/
theorem isDigitC_toNat {c : Char} (h : isDigitC c = true) :
    48 ≤ c.toNat ∧ c.toNat ≤ 57 := by
  simp only [isDigitC, Bool.and_eq_true, decide_eq_true_eq] at h
  omega

theorem char_ne_of_toNat_ne {c d : Char} (h : c.toNat ≠ d.toNat) : c ≠ d := by
  intro e
  exact h (by rw [e])

theorem digit_not_space {c : Char} (h : isDigitC c = true) : isSpaceC c = false := by
  obtain ⟨h1, h2⟩ := isDigitC_toNat h
  have hne : ∀ d : Char, d.toNat < 48 → (c == d) = false := by
    intro d hd
    simp only [beq_eq_false_iff_ne]
    intro e
    subst e
    omega
  simp only [isSpaceC, Bool.or_eq_false_iff]
  refine ⟨⟨⟨⟨⟨?_, ?_⟩, ?_⟩, ?_⟩, ?_⟩, ?_⟩ <;> exact hne _ (by decide)

theorem digit_ne_minus {c : Char} (h : isDigitC c = true) : c ≠ minusC := by
  obtain ⟨h1, h2⟩ := isDigitC_toNat h
  exact char_ne_of_toNat_ne (by have hm : minusC.toNat = 45 := by decide
                                omega)

theorem digit_ne_plus {c : Char} (h : isDigitC c = true) : c ≠ plusC := by
  obtain ⟨h1, h2⟩ := isDigitC_toNat h
  exact char_ne_of_toNat_ne (by have hm : plusC.toNat = 43 := by decide
                                omega)

theorem digit_ne_quote {c : Char} (h : isDigitC c = true) : c ≠ qC := by
  obtain ⟨h1, h2⟩ := isDigitC_toNat h
  exact char_ne_of_toNat_ne (by have hm : qC.toNat = 34 := by decide
                                omega)

/-- takeWhile over an append whose left part satisfies the predicate. -/
theorem takeWhile_append_all {p : Char → Bool} :
    ∀ {l r : List Char}, (∀ c ∈ l, p c = true) →
    (l ++ r).takeWhile p = l ++ r.takeWhile p := by
  intro l
  induction l with
  | nil => intro r _; simp
  | cons c t ih =>
    intro r h
    have hc : p c = true := h c (by simp)
    simp [List.takeWhile_cons, hc, ih (fun d hd => h d (by simp [hd]))]

theorem dropWhile_append_all {p : Char → Bool} :
    ∀ {l r : List Char}, (∀ c ∈ l, p c = true) →
    (l ++ r).dropWhile p = r.dropWhile p := by
  intro l
  induction l with
  | nil => intro r _; simp
  | cons c t ih =>
    intro r h
    have hc : p c = true := h c (by simp)
    simp [List.dropWhile_cons, hc, ih (fun d hd => h d (by simp [hd]))]

/-- parseLit consumes exactly its literal. -/
theorem parseLit_append : ∀ (pre rest : List Char),
    parseLit pre (pre ++ rest) = some rest := by
  intro pre
  induction pre with
  | nil => intro rest; rfl
  | cons c t ih => intro rest; simp [parseLit, ih]

/-- scanInt on a rendered natural followed by a non-digit separator. -/
theorem scanInt_natDigits (n : Nat) (c : Char) (rest : List Char)
    (hc : isDigitC c = false) :
    scanInt (natDigits n ++ c :: rest) = some ((n : Int), c :: rest) := by
  obtain ⟨d, t, hd⟩ : ∃ d t, natDigits n = d :: t := by
    match h : natDigits n with
    | [] => exact absurd h (natDigits_ne_nil n)
    | d :: t => exact ⟨d, t, rfl⟩
  have hdig : ∀ x ∈ natDigits n, isDigitC x = true := natDigits_all_digit n
  have hddig : isDigitC d = true := by
    rw [hd] at hdig
    exact hdig d (by simp)
  have hsp : (natDigits n ++ c :: rest).dropWhile isSpaceC = natDigits n ++ c :: rest := by
    rw [hd]
    simp [List.dropWhile_cons, digit_not_space hddig]
  have htw : (natDigits n ++ c :: rest).takeWhile isDigitC = natDigits n := by
    rw [takeWhile_append_all hdig, List.takeWhile_cons, hc]
    simp
  rw [scanInt, hsp, hd, List.cons_append]
  rw [hd, List.cons_append] at htw
  simp only [if_neg (digit_ne_minus hddig), if_neg (digit_ne_plus hddig), htw]
  rw [← List.cons_append, ← hd, digitsVal_natDigits, List.drop_left]



/-- scanInt on a rendered int followed by a non-digit separator. -/
theorem scanInt_intChars_eq (i : Int) (c : Char) (rest : List Char)
    (hc : isDigitC c = false) :
    scanInt (intChars i ++ c :: rest) = some (i, c :: rest) := by
  rw [intChars]
  by_cases hneg : i < 0
  · simp only [hneg, if_true, List.cons_append]
    have hmsp : isSpaceC minusC = false := by decide
    rw [scanInt]
    rw [List.dropWhile_cons, hmsp]
    simp only [Bool.false_eq_true, if_false, if_pos rfl]
    have htw : (natDigits i.natAbs ++ c :: rest).takeWhile isDigitC = natDigits i.natAbs := by
      rw [takeWhile_append_all (natDigits_all_digit _), List.takeWhile_cons, hc]
      simp
    rw [htw]
    have hne : natDigits i.natAbs ≠ [] := natDigits_ne_nil _
    match h2 : natDigits i.natAbs, hne with
    | d :: t, _ =>
      simp only [← h2, digitsVal_natDigits, List.drop_left]
      have hva : (i.natAbs : Int) = -i := by omega
      rw [hva]
      simp
  · simp only [hneg, if_false]
    rw [scanInt_natDigits _ _ _ hc]
    congr 1
    have : (i.toNat : Int) = i := by omega
    rw [this]

/-- scanU64 on a rendered uint64 followed by a non-digit separator. -/
theorem scanU64_natDigits (n : Nat) (c : Char) (rest : List Char)
    (hc : isDigitC c = false) (hn : n < 2 ^ 64) :
    scanU64 (natDigits n ++ c :: rest) = some (n, c :: rest) := by
  rw [scanU64, scanInt_natDigits _ _ _ hc]
  simp
  omega

/-- scanStr on a quote-free field of admissible length followed by a
closing quote. -/
theorem scanStr_append (cap : Nat) (f rest : List Char)
    (hf : ∀ x ∈ f, x ≠ qC) (hlen : f.length ≤ cap) (hne : f ≠ []) :
    scanStr cap (f ++ qC :: rest) = some (f, qC :: rest) := by
  have htw : (f ++ qC :: rest).takeWhile (fun c => c ≠ qC) = f := by
    rw [@takeWhile_append_all (fun c => decide (c ≠ qC)) f (qC :: rest)
        (fun x hx => by simp [hf x hx]), List.takeWhile_cons]
    simp
  rw [scanStr]
  rw [htw, List.take_of_length_le hlen]
  match h2 : f, hne with
  | d :: t, _ =>
    simp only [← h2, List.drop_left]







theorem prefix_getElem? {pat l : List Char} (h : pat.isPrefixOf l)
    (k : Nat) (hk : k < pat.length) : l[k]? = pat[k]? := by
  rw [List.isPrefixOf_iff_prefix] at h
  obtain ⟨s, rfl⟩ := h
  rw [List.getElem?_append_left hk]

theorem strstrAfter_append (pat : List Char) (hp : pat ≠ []) :
    ∀ (A R : List Char), NoOccIn pat A (pat ++ R) →
    strstrAfter pat (A ++ (pat ++ R)) = some R := by
  intro A
  induction A with
  | nil =>
    intro R _
    simp only [List.nil_append]
    match hpat : pat, hp with
    | p0 :: pt, _ =>
      rw [← hpat]
      have hcons : pat ++ R = p0 :: (pt ++ R) := by rw [hpat]; simp
      rw [hcons, strstrAfter, ← hcons]
      rw [if_pos (by rw [List.isPrefixOf_iff_prefix]; exact List.prefix_append pat R)]
      rw [List.drop_left]
  | cons c A' ih =>
    intro R hno
    have h0 : ¬ pat.isPrefixOf ((c :: A') ++ (pat ++ R)) := by
      have := hno 0 (by simp)
      simpa using this
    rw [List.cons_append, strstrAfter, if_neg (by simpa using h0)]
    exact ih R (fun j hj => by
      have := hno (j + 1) (by simp; omega)
      simpa using this)

theorem NoOccIn_append {pat X Y R : List Char}
    (hX : NoOccIn pat X (Y ++ R)) (hY : NoOccIn pat Y R) :
    NoOccIn pat (X ++ Y) R := by
  intro j hj
  rw [List.length_append] at hj
  by_cases h : j < X.length
  · have := hX j h
    rwa [List.append_assoc]
  · have hj' : j - X.length < Y.length := by omega
    have hthis := hY (j - X.length) hj'
    rw [List.append_assoc]
    have hsplit : j = X.length + (j - X.length) := by omega
    rw [hsplit, List.drop_append]
    exact hthis

theorem NoOccIn_no_quote {pat X R : List Char} {pt : List Char}
    (hpat : pat = qC :: pt) (hX : ∀ c ∈ X, c ≠ qC) : NoOccIn pat X R := by
  intro j hj hpre
  have h0 := prefix_getElem? hpre 0 (by rw [hpat]; simp)
  rw [List.getElem?_drop, Nat.add_zero, List.getElem?_append_left hj] at h0
  rw [hpat] at h0
  simp only [List.getElem?_cons_zero] at h0
  rw [List.getElem?_eq_getElem hj] at h0
  have h1 : X[j] = qC := by injection h0
  exact hX qC (h1 ▸ List.getElem_mem hj) rfl

theorem NoOccIn_of_litSelfRefutes {pat L : List Char}
    (h : litSelfRefutes pat L = true) (R : List Char) : NoOccIn pat L R := by
  intro j hj hpre
  rw [litSelfRefutes, List.all_eq_true] at h
  have hj' := h j (by rw [List.mem_range]; exact hj)
  rw [List.any_eq_true] at hj'
  obtain ⟨k, hk, hkp⟩ := hj'
  rw [List.mem_range] at hk
  simp only [Bool.and_eq_true, decide_eq_true_eq, Bool.not_eq_true', beq_eq_false_iff_ne] at hkp
  obtain ⟨hlt, hne⟩ := hkp
  have hg := prefix_getElem? hpre k hk
  rw [List.getElem?_drop, List.getElem?_append_left hlt] at hg
  rw [List.getD_eq_getElem?_getD, List.getD_eq_getElem?_getD] at hne
  rw [List.getElem?_eq_getElem hlt, List.getElem?_eq_getElem hk] at hne
  rw [List.getElem?_eq_getElem hlt, List.getElem?_eq_getElem hk] at hg
  injection hg with hg
  simp only [Option.getD_some] at hne
  exact hne hg



theorem payloadKey_len : payloadKey.length = 10 := by decide

/-- The payload key cannot match at the opening quote of a quote-free
field that is closed by a quote followed by a comma. -/
theorem key_not_at_quote (F R' : List Char) (hF : ∀ c ∈ F, c ≠ qC) :
    ¬ payloadKey.isPrefixOf (qC :: (F ++ qC :: ',' :: R')) := by
  intro hpre
  by_cases h8 : 8 ≤ F.length
  · have hg := prefix_getElem? hpre 8 (by decide)
    rw [List.getElem?_cons_succ] at hg
    rw [List.getElem?_append_left (by omega)] at hg
    have hk : payloadKey[8]? = some qC := by decide
    rw [hk] at hg
    rw [List.getElem?_eq_getElem (by omega)] at hg
    have h1 : F[7] = qC := by injection hg
    exact hF _ (h1 ▸ List.getElem_mem (by omega)) rfl
  · push_neg at h8
    by_cases h7 : F.length = 7
    · have hg := prefix_getElem? hpre 9 (by decide)
      rw [List.getElem?_cons_succ, List.getElem?_append_right (by omega)] at hg
      rw [h7] at hg
      have hc : (qC :: ',' :: R')[8 - 7]? = some ',' := by simp
      rw [hc] at hg
      exact absurd hg (by decide)
    · have hd6 : F.length ≤ 6 := by omega
      have hg := prefix_getElem? hpre (F.length + 1) (by rw [payloadKey_len]; omega)
      rw [List.getElem?_cons_succ, List.getElem?_append_right (Nat.le_refl _),
          Nat.sub_self] at hg
      have hq : (qC :: ',' :: R')[0]? = some qC := rfl
      rw [hq] at hg
      have hne : ∀ k, k ≤ 6 → payloadKey[k + 1]? ≠ some qC := by decide
      exact hne F.length hd6 hg.symm





theorem serialize_eq_decomp (m : gossip_msg_t) :
    serialize_message m = serPrefix m ++ (payloadKey ++ (m.payload.toList ++ [rbC])) := by
  have hsplit : ((",\"payload\":").toList : List Char) = [','] ++ payloadKey := by decide
  rw [serialize_message, serPrefix, hsplit]
  simp [List.append_assoc]

theorem natDigits_no_quote (n : Nat) : ∀ c ∈ natDigits n, c ≠ qC :=
  fun c hc => digit_ne_quote (natDigits_all_digit n c hc)

theorem intChars_no_quote (i : Int) : ∀ c ∈ intChars i, c ≠ qC := by
  intro c hc
  rw [intChars] at hc
  by_cases hneg : i < 0
  · simp only [hneg, if_true, List.mem_cons] at hc
    rcases hc with rfl | hc
    · decide
    · exact natDigits_no_quote _ c hc
  · simp only [hneg, if_false] at hc
    exact natDigits_no_quote _ c hc

theorem payloadKey_head : payloadKey = qC :: ("payload\":").toList := by decide

theorem NoOccIn_openField {F W : List Char} (hF : ∀ c ∈ F, c ≠ qC)
    (hW : ∃ R', W = qC :: ',' :: R') : NoOccIn payloadKey (qC :: F) W := by
  intro j hj hpre
  obtain ⟨R', rfl⟩ := hW
  match j with
  | 0 =>
    rw [List.drop_zero, List.cons_append] at hpre
    exact key_not_at_quote F R' hF hpre
  | k + 1 =>
    have hk : k < F.length := by
      simp only [List.length_cons] at hj
      omega
    rw [List.cons_append, List.drop_succ_cons] at hpre
    exact NoOccIn_no_quote payloadKey_head hF k hk hpre

/-- No occurrence of the payload key begins before the real key in the
serialized message, provided the four string fields are quote-free. -/
theorem noOcc_serPrefix (m : gossip_msg_t)
    (h1 : ∀ c ∈ m.msg_id.toList, c ≠ qC)
    (h2 : ∀ c ∈ m.msg_type.toList, c ≠ qC)
    (h3 : ∀ c ∈ m.sender_id.toList, c ≠ qC)
    (h4 : ∀ c ∈ m.sender_addr.toList, c ≠ qC)
    (R : List Char) : NoOccIn payloadKey (serPrefix m) R := by
  have hq1 : ((",\"msg_id\":\"").toList : List Char)
      = (",\"msg_id\":").toList ++ [qC] := by decide
  have hq2 : (("\",\"msg_type\":\"").toList : List Char)
      = ("\",\"msg_type\":").toList ++ [qC] := by decide
  have hq3 : (("\",\"sender_id\":\"").toList : List Char)
      = ("\",\"sender_id\":").toList ++ [qC] := by decide
  have hq4 : (("\",\"sender_addr\":\"").toList : List Char)
      = ("\",\"sender_addr\":").toList ++ [qC] := by decide
  have hshape : serPrefix m =
      ("\x7b\"version\":").toList ++ (intChars m.version ++ ((",\"msg_id\":").toList ++
      ((qC :: m.msg_id.toList) ++ (("\",\"msg_type\":").toList ++
      ((qC :: m.msg_type.toList) ++ (("\",\"sender_id\":").toList ++
      ((qC :: m.sender_id.toList) ++ (("\",\"sender_addr\":").toList ++
      ((qC :: m.sender_addr.toList) ++ (("\",\"timestamp_ms\":").toList ++
      (natDigits m.timestamp_ms ++ ((",\"ttl\":").toList ++
      (intChars m.ttl ++ [',']))))))))))))) := by
    rw [serPrefix, hq1, hq2, hq3, hq4]
    simp [List.append_assoc]
  rw [hshape]
  refine NoOccIn_append (NoOccIn_of_litSelfRefutes (by decide) _) ?_
  refine NoOccIn_append (NoOccIn_no_quote payloadKey_head (intChars_no_quote _)) ?_
  refine NoOccIn_append (NoOccIn_of_litSelfRefutes (by decide) _) ?_
  have hsp2 : (("\",\"msg_type\":").toList : List Char)
      = qC :: ',' :: ("\"msg_type\":").toList := by decide
  have hsp3 : (("\",\"sender_id\":").toList : List Char)
      = qC :: ',' :: ("\"sender_id\":").toList := by decide
  have hsp4 : (("\",\"sender_addr\":").toList : List Char)
      = qC :: ',' :: ("\"sender_addr\":").toList := by decide
  have hsp5 : (("\",\"timestamp_ms\":").toList : List Char)
      = qC :: ',' :: ("\"timestamp_ms\":").toList := by decide
  refine NoOccIn_append (NoOccIn_openField h1 ⟨_, by rw [hsp2]; simp only [List.cons_append]; rfl⟩) ?_
  refine NoOccIn_append (NoOccIn_of_litSelfRefutes (by decide) _) ?_
  refine NoOccIn_append (NoOccIn_openField h2 ⟨_, by rw [hsp3]; simp only [List.cons_append]; rfl⟩) ?_
  refine NoOccIn_append (NoOccIn_of_litSelfRefutes (by decide) _) ?_
  refine NoOccIn_append (NoOccIn_openField h3 ⟨_, by rw [hsp4]; simp only [List.cons_append]; rfl⟩) ?_
  refine NoOccIn_append (NoOccIn_of_litSelfRefutes (by decide) _) ?_
  refine NoOccIn_append (NoOccIn_openField h4 ⟨_, by rw [hsp5]; simp only [List.cons_append]; rfl⟩) ?_
  refine NoOccIn_append (NoOccIn_of_litSelfRefutes (by decide) _) ?_
  refine NoOccIn_append (NoOccIn_no_quote payloadKey_head (natDigits_no_quote _)) ?_
  refine NoOccIn_append (NoOccIn_of_litSelfRefutes (by decide) _) ?_
  refine NoOccIn_append (NoOccIn_no_quote payloadKey_head (intChars_no_quote _)) ?_
  exact NoOccIn_no_quote payloadKey_head (by decide)



theorem mk_toList_eq (s : String) : String.mk s.toList = s := rfl

theorem take_of_le {l : List Char} {n : Nat} (h : l.length ≤ n) : l.take n = l :=
  List.take_of_length_le h

set_option maxHeartbeats 2000000 in
theorem parseLit_cons_append (c : Char) (pre rest : List Char) :
    parseLit (c :: pre) (c :: (pre ++ rest)) = some rest := by
  have h := parseLit_append (c :: pre) rest
  rwa [List.cons_append] at h

set_option maxHeartbeats 2000000 in
/-- Codec round-trip: decoding the encoder's output recovers the
envelope, for envelopes whose string fields are nonempty, quote-free and
within their capacities, whose timestamp fits uint64, and whose payload
is nonempty, within capacity, and free of trailing whitespace. -/
theorem deserialize_serialize (m : gossip_msg_t)
    (hid_q : ∀ c ∈ m.msg_id.toList, c ≠ qC)
    (hid_len : m.msg_id.toList.length ≤ 127) (hid_ne : m.msg_id.toList ≠ [])
    (hty_q : ∀ c ∈ m.msg_type.toList, c ≠ qC)
    (hty_len : m.msg_type.toList.length ≤ 31) (hty_ne : m.msg_type.toList ≠ [])
    (hsid_q : ∀ c ∈ m.sender_id.toList, c ≠ qC)
    (hsid_len : m.sender_id.toList.length ≤ 63) (hsid_ne : m.sender_id.toList ≠ [])
    (hsad_q : ∀ c ∈ m.sender_addr.toList, c ≠ qC)
    (hsad_len : m.sender_addr.toList.length ≤ 63) (hsad_ne : m.sender_addr.toList ≠ [])
    (hts : m.timestamp_ms < 2 ^ 64)
    (hpl_ne : m.payload.toList ≠ []) (hpl_len : m.payload.toList.length ≤ 8191)
    (hpl_trim : trimTrail m.payload.toList = m.payload.toList) :
    deserialize_message (serialize_message m) = some m := by
  have hA2 : ((",\"msg_id\":\"").toList : List Char) = ',' :: ("\"msg_id\":\"").toList := by decide
  have hA3' : (("\",\"msg_type\":\"").toList : List Char) = qC :: (",\"msg_type\":\"").toList := by decide
  have hA4' : (("\",\"sender_id\":\"").toList : List Char) = qC :: (",\"sender_id\":\"").toList := by decide
  have hA5' : (("\",\"sender_addr\":\"").toList : List Char) = qC :: (",\"sender_addr\":\"").toList := by decide
  have hA6' : (("\",\"timestamp_ms\":").toList : List Char) = qC :: (",\"timestamp_ms\":").toList := by decide
  have hA7 : ((",\"ttl\":").toList : List Char) = ',' :: ("\"ttl\":").toList := by decide
  have hA8 : ((",\"payload\":").toList : List Char) = ',' :: ("\"payload\":").toList := by decide
  have hcomma : isDigitC ',' = false := by decide
  -- the serialized message, right-nested
  have hser : serialize_message m =
      ("\x7b\"version\":").toList ++ (intChars m.version ++ ((",\"msg_id\":\"").toList ++
      (m.msg_id.toList ++ (("\",\"msg_type\":\"").toList ++ (m.msg_type.toList ++
      (("\",\"sender_id\":\"").toList ++ (m.sender_id.toList ++
      (("\",\"sender_addr\":\"").toList ++ (m.sender_addr.toList ++
      (("\",\"timestamp_ms\":").toList ++ (natDigits m.timestamp_ms ++
      ((",\"ttl\":").toList ++ (intChars m.ttl ++
      ((",\"payload\":").toList ++ (m.payload.toList ++ [rbC]))))))))))))))) := by
    rw [serialize_message]
    simp [List.append_assoc]
  -- payload extraction
  have hstr : strstrAfter payloadKey (serialize_message m)
      = some (m.payload.toList ++ [rbC]) := by
    rw [serialize_eq_decomp m]
    exact strstrAfter_append payloadKey (by decide) (serPrefix m)
      (m.payload.toList ++ [rbC]) (noOcc_serPrefix m hid_q hty_q hsid_q hsad_q _)
  have hextract : extractPayload (serialize_message m) = some m.payload.toList := by
    rw [extractPayload]
    simp only [hstr]
    have hrev : (m.payload.toList ++ [rbC]).reverse = rbC :: m.payload.toList.reverse := by
      simp
    rw [hrev, List.takeWhile_cons]
    have hinner : (if decide (rbC ≠ rbC) = true then
          rbC :: List.takeWhile (fun c => decide (c ≠ rbC)) m.payload.toList.reverse
        else []) = ([] : List Char) := by simp
    rw [hinner]
    rw [if_neg (by simp)]
    rw [if_neg (by
      simp only [List.length_append, List.length_cons, List.length_nil,
                 Nat.add_sub_cancel, Nat.sub_zero]
      exact fun h => hpl_ne (List.length_eq_zero.mp h))]
    simp only [List.length_nil, List.length_append, List.length_cons,
               Nat.add_sub_cancel, Nat.sub_zero]
    rw [List.take_left]
    rw [show MSG_BUF_SIZE - 1 = 8191 from rfl]
    rw [take_of_le hpl_len, hpl_trim]
  -- scalar parsing steps
  rw [deserialize_message, hextract, hser]
  rw [parseLit_append]
  simp only [Option.bind_eq_bind, Option.some_bind]
  rw [hA2]
  simp only [List.cons_append]
  rw [scanInt_intChars_eq _ _ _ hcomma]
  simp only [Option.some_bind]
  rw [parseLit_cons_append]
  simp only [Option.some_bind]
  rw [hA3']
  simp only [List.cons_append]
  rw [scanStr_append 127 _ _ hid_q hid_len hid_ne]
  simp only [Option.some_bind]
  rw [parseLit_cons_append]
  simp only [Option.some_bind]
  rw [hA4']
  simp only [List.cons_append]
  rw [scanStr_append 31 _ _ hty_q hty_len hty_ne]
  simp only [Option.some_bind]
  rw [parseLit_cons_append]
  simp only [Option.some_bind]
  rw [hA5']
  simp only [List.cons_append]
  rw [scanStr_append 63 _ _ hsid_q hsid_len hsid_ne]
  simp only [Option.some_bind]
  rw [parseLit_cons_append]
  simp only [Option.some_bind]
  rw [hA6']
  simp only [List.cons_append]
  rw [scanStr_append 63 _ _ hsad_q hsad_len hsad_ne]
  simp only [Option.some_bind]
  rw [parseLit_cons_append]
  simp only [Option.some_bind]
  rw [hA7]
  simp only [List.cons_append]
  rw [scanU64_natDigits _ _ _ hcomma hts]
  simp only [Option.some_bind]
  rw [parseLit_cons_append]
  simp only [Option.some_bind]
  rw [hA8]
  simp only [List.cons_append]
  rw [scanInt_intChars_eq _ _ _ hcomma]
  simp only [Option.some_bind]
  simp only [Option.some_bind, mk_toList_eq]
  rfl

/-- C3 (amended): codec round-trip holds for every envelope whose string
fields are nonempty, quote-free and within their capacities, whose
timestamp fits uint64, and whose payload is nonempty, within capacity
and without trailing whitespace. -/
theorem C3_codec_round_trip (m : gossip_msg_t)
    (hid_q : ∀ c ∈ m.msg_id.toList, c ≠ qC)
    (hid_len : m.msg_id.toList.length ≤ 127) (hid_ne : m.msg_id.toList ≠ [])
    (hty_q : ∀ c ∈ m.msg_type.toList, c ≠ qC)
    (hty_len : m.msg_type.toList.length ≤ 31) (hty_ne : m.msg_type.toList ≠ [])
    (hsid_q : ∀ c ∈ m.sender_id.toList, c ≠ qC)
    (hsid_len : m.sender_id.toList.length ≤ 63) (hsid_ne : m.sender_id.toList ≠ [])
    (hsad_q : ∀ c ∈ m.sender_addr.toList, c ≠ qC)
    (hsad_len : m.sender_addr.toList.length ≤ 63) (hsad_ne : m.sender_addr.toList ≠ [])
    (hts : m.timestamp_ms < 2 ^ 64)
    (hpl_ne : m.payload.toList ≠ []) (hpl_len : m.payload.toList.length ≤ 8191)
    (hpl_trim : trimTrail m.payload.toList = m.payload.toList) :
    deserialize_message (serialize_message m) = some m :=
  deserialize_serialize m hid_q hid_len hid_ne hty_q hty_len hty_ne hsid_q hsid_len
    hsid_ne hsad_q hsad_len hsad_ne hts hpl_ne hpl_len hpl_trim

/-- Witness for C3 at a concrete envelope. -/
theorem C3_codec_round_trip_witness :
    deserialize_message (serialize_message
      { version := 1, msg_id := "m1", msg_type := "GOSSIP", sender_id := "s",
        sender_addr := "1.2.3.4:5", timestamp_ms := 7, ttl := -2,
        payload := "\x7b\"a\":1\x7d" }) = some
      { version := 1, msg_id := "m1", msg_type := "GOSSIP", sender_id := "s",
        sender_addr := "1.2.3.4:5", timestamp_ms := 7, ttl := -2,
        payload := "\x7b\"a\":1\x7d" } :=
  C3_codec_round_trip _ (by decide) (by decide) (by decide) (by decide) (by decide)
    (by decide) (by decide) (by decide) (by decide) (by decide) (by decide)
    (by decide) (by decide) (by decide) (by decide) (by decide)

/-- C3 counterexample: a payload with trailing whitespace is trimmed by
the decoder, so decode(encode(e)) differs from e. -/
theorem C3_codec_round_trip_counterexample :
    deserialize_message (serialize_message
      { version := 1, msg_id := "m1", msg_type := "GOSSIP", sender_id := "s",
        sender_addr := "1.2.3.4:5", timestamp_ms := 7, ttl := 5,
        payload := "\x7b\x7d " }) ≠ some
      { version := 1, msg_id := "m1", msg_type := "GOSSIP", sender_id := "s",
        sender_addr := "1.2.3.4:5", timestamp_ms := 7, ttl := 5,
        payload := "\x7b\x7d " } := by decide



theorem obind_eq_some {α β : Type} {x : Option α} {f : α → Option β} {b : β} :
    (x >>= f) = some b ↔ ∃ a, x = some a ∧ f a = some b := by
  cases x <;> simp

theorem scanStr_length {cap : Nat} {l tk rest : List Char}
    (h : scanStr cap l = some (tk, rest)) : tk.length ≤ cap := by
  rw [scanStr] at h
  match h2 : (l.takeWhile (fun c => c ≠ qC)).take cap, h with
  | [], h => exact absurd h (by simp)
  | d :: t, h =>
    simp only [Option.some_inj, Prod.mk.injEq] at h
    obtain ⟨h1, _⟩ := h
    rw [← h1]
    have hle := List.length_take_le cap (l.takeWhile (fun c => decide (c ≠ qC)))
    rwa [h2] at hle

theorem trimTrail_length_le (l : List Char) : (trimTrail l).length ≤ l.length := by
  rw [trimTrail]
  simp only [List.length_reverse]
  calc (l.reverse.dropWhile _).length ≤ l.reverse.length :=
        List.Sublist.length_le (List.dropWhile_sublist _)
  _ = l.length := List.length_reverse l

theorem extractPayload_length {buf pl : List Char}
    (h : extractPayload buf = some pl) : pl.length ≤ MSG_BUF_SIZE - 1 := by
  rw [extractPayload] at h
  match h2 : strstrAfter payloadKey buf, h with
  | none, h => exact absurd h (by simp)
  | some rest, h =>
    simp only at h
    by_cases hc1 : (rest.reverse.takeWhile (fun c => c ≠ rbC)).length = rest.length
    · rw [if_pos hc1] at h
      exact absurd h (by simp)
    · rw [if_neg hc1] at h
      by_cases hc2 : rest.length - 1 - (rest.reverse.takeWhile (fun c => c ≠ rbC)).length = 0
      · rw [if_pos hc2] at h
        exact absurd h (by simp)
      · rw [if_neg hc2] at h
        simp only [Option.some_inj] at h
        rw [← h]
        exact le_trans (trimTrail_length_le _)
          (le_trans (List.length_take_le _ _) (by norm_num [MSG_BUF_SIZE]))

/-- C10: on any input (not only encoder output) a successful decode
yields fields within their declared capacities: msg_id ≤ 127,
msg_type ≤ 31, sender_id ≤ 63, sender_addr ≤ 63 and
payload ≤ MSG_BUF_SIZE - 1 = 8191 characters, so decoding never
overruns a field buffer. -/
theorem C10_deserialize_bounds (buf : List Char) (m : gossip_msg_t)
    (h : deserialize_message buf = some m) :
    m.msg_id.toList.length ≤ 127 ∧ m.msg_type.toList.length ≤ 31 ∧
    m.sender_id.toList.length ≤ 63 ∧ m.sender_addr.toList.length ≤ 63 ∧
    m.payload.toList.length ≤ MSG_BUF_SIZE - 1 := by
  rw [deserialize_message] at h
  rw [obind_eq_some] at h
  obtain ⟨r0, _, h⟩ := h
  rw [obind_eq_some] at h
  obtain ⟨⟨ver, r1⟩, _, h⟩ := h
  rw [obind_eq_some] at h
  obtain ⟨r2, _, h⟩ := h
  rw [obind_eq_some] at h
  obtain ⟨⟨mid, r3⟩, hmid, h⟩ := h
  rw [obind_eq_some] at h
  obtain ⟨r4, _, h⟩ := h
  rw [obind_eq_some] at h
  obtain ⟨⟨mty, r5⟩, hmty, h⟩ := h
  rw [obind_eq_some] at h
  obtain ⟨r6, _, h⟩ := h
  rw [obind_eq_some] at h
  obtain ⟨⟨sid, r7⟩, hsid, h⟩ := h
  rw [obind_eq_some] at h
  obtain ⟨r8, _, h⟩ := h
  rw [obind_eq_some] at h
  obtain ⟨⟨sad, r9⟩, hsad, h⟩ := h
  rw [obind_eq_some] at h
  obtain ⟨r10, _, h⟩ := h
  rw [obind_eq_some] at h
  obtain ⟨⟨ts, r11⟩, _, h⟩ := h
  rw [obind_eq_some] at h
  obtain ⟨r12, _, h⟩ := h
  rw [obind_eq_some] at h
  obtain ⟨⟨ttlv, r13⟩, _, h⟩ := h
  rw [obind_eq_some] at h
  obtain ⟨pl, hpl, h⟩ := h
  simp only [pure, Option.some_inj] at h
  subst h
  exact ⟨scanStr_length hmid, scanStr_length hmty, scanStr_length hsid,
         scanStr_length hsad, extractPayload_length hpl⟩

/-- Witness for C10 at a concrete datagram. -/
theorem C10_deserialize_bounds_witness :
    ("\x7b\"version\":1,\"msg_id\":\"m1\",\"msg_type\":\"GOSSIP\",\"sender_id\":\"s\",\"sender_addr\":\"a:1\",\"timestamp_ms\":0,\"ttl\":-1,\"payload\":\x7b\x7d\x7d").toList.length ≥ 0 ∧
    (deserialize_message (("\x7b\"version\":1,\"msg_id\":\"m1\",\"msg_type\":\"GOSSIP\",\"sender_id\":\"s\",\"sender_addr\":\"a:1\",\"timestamp_ms\":0,\"ttl\":-1,\"payload\":\x7b\x7d\x7d").toList)).elim True
      (fun m => m.msg_id.toList.length ≤ 127 ∧ m.msg_type.toList.length ≤ 31 ∧
        m.sender_id.toList.length ≤ 63 ∧ m.sender_addr.toList.length ≤ 63 ∧
        m.payload.toList.length ≤ MSG_BUF_SIZE - 1) := by
  refine ⟨by decide, ?_⟩
  have h := C10_deserialize_bounds
    (("\x7b\"version\":1,\"msg_id\":\"m1\",\"msg_type\":\"GOSSIP\",\"sender_id\":\"s\",\"sender_addr\":\"a:1\",\"timestamp_ms\":0,\"ttl\":-1,\"payload\":\x7b\x7d\x7d").toList)
    { version := 1, msg_id := "m1", msg_type := "GOSSIP", sender_id := "s",
      sender_addr := "a:1", timestamp_ms := 0, ttl := -1, payload := "\x7b\x7d" }
    (by decide)
  rw [show deserialize_message (("\x7b\"version\":1,\"msg_id\":\"m1\",\"msg_type\":\"GOSSIP\",\"sender_id\":\"s\",\"sender_addr\":\"a:1\",\"timestamp_ms\":0,\"ttl\":-1,\"payload\":\x7b\x7d\x7d").toList) = some
    { version := 1, msg_id := "m1", msg_type := "GOSSIP", sender_id := "s",
      sender_addr := "a:1", timestamp_ms := 0, ttl := -1, payload := "\x7b\x7d" } from by decide]
  exact h



theorem natDigits_length_le : ∀ (k n : Nat), 1 ≤ k → n < 10 ^ k →
    (natDigits n).length ≤ k := by
  intro k
  induction k with
  | zero => omega
  | succ k ih =>
    intro n _ hn
    rw [natDigits_eq]
    by_cases h10 : n < 10
    · rw [if_pos h10]
      simp
    · simp only [h10, if_false, List.length_append, List.length_cons, List.length_nil]
      have hk1 : 1 ≤ k := by
        by_contra hk0
        have : k = 0 := by omega
        subst this
        simp at hn
        omega
      have : (natDigits (n / 10)).length ≤ k := by
        refine ih (n / 10) hk1 ?_
        rw [Nat.div_lt_iff_lt_mul (show 0 < 10 by omega)]
        calc n < 10 ^ (k + 1) := hn
        _ = 10 ^ k * 10 := by ring
      omega

theorem hexOfBytes_length (bs : List Nat) : (hexOfBytes bs).length = 2 * bs.length := by
  induction bs with
  | nil => rfl
  | cons b t ih =>
    rw [hexOfBytes] at ih ⊢
    simp only [List.foldr_cons, List.length_cons]
    omega

theorem sha256Bytes_length (d : List Nat) : (sha256Bytes d).length = 32 := by
  rw [sha256Bytes]
  simp only [List.foldr_cons, List.foldr_nil, List.length_cons, List.length_nil]

theorem sha256_hex_length (id : String) (nonce : Nat) :
    (sha256_hex id nonce).length = 64 := by
  rw [sha256_hex, hexOfBytes_length, sha256Bytes_length]

theorem all_zero_iff_take (l : List Char) (K : Nat) (hK : K ≤ l.length) :
    (((List.range K).all (fun i => l.getD i (Char.ofNat 0) == Char.ofNat 48)) = true)
      ↔ l.take K = List.replicate K (Char.ofNat 48) := by
  rw [List.all_eq_true]
  constructor
  · intro h
    refine List.ext_getElem (by simp; omega) ?_
    intro i h1 h2
    have hiK : i < K := by simp at h1; omega
    have := h i (by rw [List.mem_range]; exact hiK)
    simp only [beq_iff_eq] at this
    rw [List.getElem_take, List.getElem_replicate]
    rw [List.getD_eq_getElem?_getD, List.getElem?_eq_getElem (by omega)] at this
    simpa using this
  · intro h i hi
    rw [List.mem_range] at hi
    simp only [beq_iff_eq]
    have hlt1 : i < (List.take K l).length := by
      rw [List.length_take]
      omega
    have hlt2 : i < (List.replicate K (Char.ofNat 48)).length := by
      rw [List.length_replicate]
      omega
    have h1 : (l.take K)[i] = (List.replicate K (Char.ofNat 48))[i] := by
      congr 1
    rw [List.getElem_take, List.getElem_replicate] at h1
    rw [List.getD_eq_getElem?_getD, List.getElem?_eq_getElem (by omega)]
    simpa using h1

/-- C4: for node id strings within NODE_ID_LEN, nonces within unsigned
long, and difficulties within the 64-character digest, pow_check
returns true iff the hex SHA-256 of id ‖ decimal(nonce) begins with K
zero characters. -/
theorem C4_pow_check_iff (id : String) (nonce : Nat) (K : Nat)
    (hid : id.toList.length ≤ 63) (hnonce : nonce < 2 ^ 64) (hK : K ≤ 64) :
    pow_check id nonce (K : Int) = true ↔
      (hexOfBytes (sha256Bytes ((id.toList ++ natDigits nonce).map Char.toNat))).take K
        = List.replicate K (Char.ofNat 48) := by
  have hdl : (natDigits nonce).length ≤ 20 := by
    refine natDigits_length_le 20 nonce (by omega) ?_
    calc nonce < 2 ^ 64 := hnonce
    _ < 10 ^ 20 := by norm_num
  have htk : (id.toList ++ natDigits nonce).take 255 = id.toList ++ natDigits nonce := by
    refine take_of_le ?_
    rw [List.length_append]
    omega
  rw [pow_check, sha256_hex, htk]
  rw [Int.toNat_natCast]
  exact all_zero_iff_take _ K (by rw [hexOfBytes_length, sha256Bytes_length]; omega)

/-- Witness for C4 at a concrete id, nonce and difficulty (the digest of
"nodeA" ‖ "30" begins with one zero nibble). -/
theorem C4_pow_check_iff_witness :
    (hexOfBytes (sha256Bytes ((("nodeA").toList ++ natDigits 30).map Char.toNat))).take 1
      = List.replicate 1 (Char.ofNat 48) :=
  (C4_pow_check_iff "nodeA" 30 1 (by decide) (by decide) (by decide)).mp (by decide)



theorem subperm_nodup {α : Type} {l₁ l₂ : List α} (h : List.Subperm l₁ l₂)
    (h2 : l₂.Nodup) : l₁.Nodup := by
  obtain ⟨s, hp, hsub⟩ := h
  exact hp.nodup_iff.mp (h2.sublist hsub)

theorem subperm_map {α β : Type} (f : α → β) {l₁ l₂ : List α} (h : List.Subperm l₁ l₂) :
    List.Subperm (l₁.map f) (l₂.map f) := by
  obtain ⟨s, hp, hsub⟩ := h
  exact ⟨s.map f, hp.map f, hsub.map f⟩

/-- The swap-with-last removal step keeps a sub-permutation of the
original list. -/
theorem set_last_dropLast_subperm (l : List peer_info_t) (i : Nat)
    (hi : i < l.length) :
    List.Subperm ((l.set i (l.getD (l.length - 1) default)).dropLast) l := by
  have hx : l.set i (l.getD (l.length - 1) default)
      = l.take i ++ (l.getD (l.length - 1) default) :: l.drop (i + 1) := by
    rw [List.set_eq_take_append_cons_drop, if_pos hi]
  by_cases hlast : i = l.length - 1
  · subst hlast
    rw [hx]
    have hdrop : l.drop (l.length - 1 + 1) = [] := List.drop_eq_nil_of_le (by omega)
    rw [hdrop, List.dropLast_concat]
    exact (List.take_sublist _ _).subperm
  · have hii : i < l.length - 1 := by omega
    rw [hx]
    have hdne : l.drop (i + 1) ≠ [] := by
      intro h0
      have := List.drop_eq_nil_iff.mp h0
      omega
    have hsplit : l.drop (i + 1) = (l.drop (i + 1)).dropLast ++ [l.getD (l.length - 1) default] := by
      have hgl : (l.drop (i + 1)).getLast hdne = l.getD (l.length - 1) default := by
        rw [List.getLast_eq_getElem]
        rw [List.getElem_drop]
        rw [List.getD_eq_getElem?_getD, List.getElem?_eq_getElem (by omega)]
        simp only [Option.getD_some]
        congr 1
        simp only [List.length_drop]
        omega
      conv_lhs => rw [← List.dropLast_append_getLast hdne]
      rw [hgl]
    have hdl : (l.take i ++ (l.getD (l.length - 1) default) :: l.drop (i + 1)).dropLast
        = l.take i ++ (l.getD (l.length - 1) default) :: (l.drop (i + 1)).dropLast := by
      rw [List.dropLast_append_of_ne_nil]
      · rw [List.dropLast_cons_of_ne_nil hdne]
      · simp
    rw [hdl]
    have hperm : List.Perm
        (l.take i ++ (l.getD (l.length - 1) default) :: (l.drop (i + 1)).dropLast)
        (l.take i ++ ((l.drop (i + 1)).dropLast ++ [l.getD (l.length - 1) default])) := by
      refine List.Perm.append_left _ ?_
      exact (List.perm_append_singleton _ _).symm
    refine List.Subperm.trans hperm.subperm ?_
    have heq : l.take i ++ ((l.drop (i + 1)).dropLast ++ [l.getD (l.length - 1) default])
        = l.take i ++ l.drop (i + 1) := by
      rw [← hsplit]
    rw [heq]
    have : List.Sublist (l.take i ++ l.drop (i + 1)) l := by
      have := List.eraseIdx_sublist l i
      rwa [List.eraseIdx_eq_take_drop_succ] at this
    exact this.subperm



theorem expireAux_subperm (now tmo : Nat) :
    ∀ (fuel : Nat) (l : List peer_info_t) (i : Nat),
    List.Subperm (expireAux now tmo fuel l i) l := by
  intro fuel
  induction fuel with
  | zero => intro l i; exact (List.Perm.refl l).subperm
  | succ fuel ih =>
    intro l i
    rw [expireAux]
    by_cases hil : i < l.length
    · rw [if_pos hil]
      by_cases hexp : age64 now ((l.getD i default).last_seen) > tmo
      · rw [if_pos hexp]
        exact List.Subperm.trans (ih _ i) (set_last_dropLast_subperm l i hil)
      · rw [if_neg hexp]
        exact ih l (i + 1)
    · rw [if_neg hil]

theorem touchFirst_map_addr (a : sockaddr_in) (now : Nat) :
    ∀ l : List peer_info_t,
    (touchFirst a now l).map (fun p => p.addr) = l.map (fun p => p.addr) := by
  intro l
  induction l with
  | nil => rfl
  | cons p t ih =>
    rw [touchFirst]
    by_cases hp : p.addr = a
    · rw [if_pos hp]
      simp
    · rw [if_neg hp]
      simp [ih]

theorem touchFirst_refreshes (a : sockaddr_in) (now : Nat) :
    ∀ l : List peer_info_t, (∃ p ∈ l, p.addr = a) →
    ∃ q ∈ touchFirst a now l, q.addr = a ∧ q.last_seen = now := by
  intro l
  induction l with
  | nil => rintro ⟨p, hp, _⟩; exact absurd hp (by simp)
  | cons p t ih =>
    rintro ⟨q, hq, hqa⟩
    rw [touchFirst]
    by_cases hp : p.addr = a
    · rw [if_pos hp]
      exact ⟨{ p with last_seen := now }, by simp, hp, rfl⟩
    · rw [if_neg hp]
      rcases List.mem_cons.mp hq with rfl | hqt
      · exact absurd hqa hp
      · obtain ⟨r, hr, hra⟩ := ih ⟨q, hqt, hqa⟩
        exact ⟨r, by simp [hr], hra⟩

/-- C7 counterexample: membership_init accepts a negative limit, after
which count ≤ limit is already violated (count 0, limit -1). -/
theorem C7_membership_inv_counterexample :
    ¬ (((membership_init (-1)).list.length : Int) ≤ (membership_init (-1)).limit) := by
  decide

/-- C7 (amended): provided init's limit parameter is nonnegative, the
view invariant (distinct addresses, count ≤ limit ≤ MAX_PEERS = 64)
holds after membership_init and is preserved by membership_add and
membership_remove_expired; and membership_add refreshes the existing
entry (returning 0) when the address is present, appends (returning 1)
when count < limit, and rejects (returning -1) otherwise. -/
theorem C7_membership_inv (lim : Int) (m : membership_t) (a : sockaddr_in)
    (now tmo : Nat) (hlim : 0 ≤ lim) (hm : membershipInv m) :
    membershipInv (membership_init lim) ∧
    membershipInv (membership_add m a now).1 ∧
    membershipInv (membership_remove_expired now tmo m) ∧
    (m.list.any (fun p => p.addr == a) = true →
      (membership_add m a now).2 = 0 ∧
      (membership_add m a now).1.list = touchFirst a now m.list ∧
      (membership_add m a now).1.list.map (fun p => p.addr)
        = m.list.map (fun p => p.addr) ∧
      ∃ q ∈ (membership_add m a now).1.list, q.addr = a ∧ q.last_seen = now) ∧
    (m.list.any (fun p => p.addr == a) = false →
      (m.list.length : Int) < m.limit →
      (membership_add m a now).2 = 1 ∧
      (membership_add m a now).1.list = m.list ++ [{ addr := a, last_seen := now }]) ∧
    (m.list.any (fun p => p.addr == a) = false →
      ¬ ((m.list.length : Int) < m.limit) →
      (membership_add m a now).2 = -1 ∧ membership_add m a now = (m, -1)) := by
  obtain ⟨hnd, hcnt, hlim64⟩ := hm
  refine ⟨?_, ?_, ?_, ?_, ?_, ?_⟩
  · refine ⟨by simp [membership_init], ?_, ?_⟩
    · simp only [membership_init, List.length_nil, Nat.cast_zero]
      by_cases h64 : lim > (MAX_PEERS : Int)
      · rw [if_pos h64]
        norm_num [MAX_PEERS]
      · rw [if_neg h64]
        exact hlim
    · simp only [membership_init]
      by_cases h64 : lim > (MAX_PEERS : Int)
      · rw [if_pos h64]
      · rw [if_neg h64]
        push_neg at h64
        exact h64
  · rw [membership_add]
    by_cases hany : m.list.any (fun p => p.addr == a)
    · rw [if_pos hany]
      refine ⟨?_, ?_, hlim64⟩
      · simp only [touchFirst_map_addr]
        exact hnd
      · simp only [touchFirst_map_addr]
        have : (touchFirst a now m.list).length = m.list.length := by
          have := congrArg List.length (touchFirst_map_addr a now m.list)
          simpa using this
        simp only [this]
        exact hcnt
    · rw [if_neg hany]
      by_cases hlt : (m.list.length : Int) < m.limit
      · rw [if_pos hlt]
        refine ⟨?_, ?_, hlim64⟩
        · rw [List.map_append]
          simp only [List.map_cons, List.map_nil]
          rw [List.nodup_append]
          refine ⟨hnd, by simp, ?_⟩
          intro x hx hx2
          simp only [List.mem_singleton] at hx2
          subst hx2
          refine hany ?_
          rw [List.any_eq_true]
          obtain ⟨p, hp, hpa⟩ := List.mem_map.mp hx
          exact ⟨p, hp, by simp [hpa]⟩
        · simp only [List.length_append, List.length_cons, List.length_nil]
          push_cast
          omega
      · rw [if_neg hlt]
        exact ⟨hnd, hcnt, hlim64⟩
  · rw [membership_remove_expired]
    refine ⟨?_, ?_, hlim64⟩
    · exact subperm_nodup (subperm_map _ (expireAux_subperm now tmo _ m.list 0)) hnd
    · have := (expireAux_subperm now tmo (2 * m.list.length + 1) m.list 0).length_le
      calc ((expireAux now tmo (2 * m.list.length + 1) m.list 0).length : Int)
          ≤ (m.list.length : Int) := by exact_mod_cast this
      _ ≤ m.limit := hcnt
  · intro hany
    rw [membership_add, if_pos hany]
    refine ⟨rfl, rfl, touchFirst_map_addr a now m.list, ?_⟩
    refine touchFirst_refreshes a now m.list ?_
    rw [List.any_eq_true] at hany
    obtain ⟨p, hp, hpa⟩ := hany
    exact ⟨p, hp, by simpa using hpa⟩
  · intro hany hlt
    rw [membership_add, if_neg (by rw [hany]; simp), if_pos hlt]
    exact ⟨rfl, rfl⟩
  · intro hany hlt
    rw [membership_add, if_neg (by rw [hany]; simp), if_neg hlt]
    exact ⟨rfl, rfl⟩

/-- Witness for C7 at a concrete view. -/
theorem C7_membership_inv_witness :
    membershipInv (membership_add
      { list := [{ addr := { ip := 1, port := 2 }, last_seen := 3 }], limit := 20 }
      { ip := 5, port := 6 } 9).1 :=
  (C7_membership_inv 20 { list := [{ addr := { ip := 1, port := 2 }, last_seen := 3 }], limit := 20 }
    { ip := 5, port := 6 } 9 0 (by decide)
    ⟨by decide, by decide, by decide⟩).2.1



/-- C6: with PoW enabled, a HELLO failing verification is dropped with
no reply and no membership change; on success the sender is added to
the view (through membership_add) and exactly one PEERS_LIST reply goes
back to the sender. -/
theorem C6_hello_pow_gate (n : node_t) (msg : gossip_msg_t)
    (sender : sockaddr_in) (now : Nat) (_hpow : 0 < n.pow_difficulty) :
    (node_verify_hello_pow n msg = false →
      handle_hello n msg sender now = (n.membership, [])) ∧
    (node_verify_hello_pow n msg = true →
      (handle_hello n msg sender now).1 = (membership_add n.membership sender now).1 ∧
      ∃ r, (handle_hello n msg sender now).2 = [(sender, r)] ∧
        r.msg_type = "PEERS_LIST") := by
  constructor
  · intro hv
    rw [handle_hello, hv]
    rfl
  · intro hv
    rw [handle_hello, hv]
    exact ⟨rfl, _, rfl, rfl⟩

/-- Witness for C6: a concrete HELLO whose recomputed digest does not
start with a zero nibble is dropped. -/
theorem C6_hello_pow_gate_witness :
    handle_hello
      (node_init "me" "127.0.0.1:9000" 3 5 1 20)
      { version := 1, msg_id := "h1", msg_type := "HELLO", sender_id := "n",
        sender_addr := "1.2.3.4:5", timestamp_ms := 0, ttl := 1,
        payload := "\x7b \"pow\": \x7b \"nonce\": 0 \x7d \x7d" }
      { ip := 9, port := 9 } 5
      = ((node_init "me" "127.0.0.1:9000" 3 5 1 20).membership, []) :=
  (C6_hello_pow_gate _ _ _ _ (by decide)).1 (by decide)







theorem find_stored_mem_activeStore {n : node_t} {id : String}
    {e : String × String} (h : find_stored n id = some e) : e ∈ activeStore n := by
  rw [find_stored] at h
  obtain ⟨i, hi, hf⟩ := List.exists_of_findSome?_eq_some h
  rw [activeStore]
  by_cases hc : (n.gossip_store.getD i ("", "")).1 == id
  · rw [if_pos hc] at hf
    simp only [Option.some_inj] at hf
    subst hf
    exact List.mem_map.mpr ⟨i, hi, rfl⟩
  · rw [if_neg hc] at hf
    exact absurd hf (by simp)

/-- C2 (amended): every relayed copy has ttl exactly one less than its
source envelope (hence strictly smaller) and never negative, relay is a
no-op when ttl ≤ 0, and handle_iwant replies carry a nonnegative ttl
provided every stored entry was serialized from an envelope with
nonnegative ttl.  (Without that proviso the claim fails: handle_gossip
stores envelopes without inspecting ttl, and handle_iwant re-sends the
stored bytes verbatim, negative ttl included.) -/
theorem C2_ttl_bounds (randv : Nat → Nat) (n : node_t) (msg msgW : gossip_msg_t)
    (exclude : Option sockaddr_in) (sender : sockaddr_in)
    (hstore : ∀ e ∈ activeStore n, ∃ m',
      e.2 = String.mk ((serialize_message m').take (MAX_SERIALIZED_LEN - 1)) ∧ 0 ≤ m'.ttl) :
    (msg.ttl ≤ 0 → relay_gossip randv n msg exclude = []) ∧
    (∀ x ∈ relay_gossip randv n msg exclude,
      x.2.ttl = msg.ttl - 1 ∧ x.2.ttl < msg.ttl ∧ 0 ≤ x.2.ttl) ∧
    (∀ y ∈ handle_iwant n msgW sender, ∃ m',
      y.2 = String.mk ((serialize_message m').take (MAX_SERIALIZED_LEN - 1)) ∧ 0 ≤ m'.ttl) := by
  refine ⟨?_, ?_, ?_⟩
  · intro h0
    rw [relay_gossip, if_pos h0]
  · intro x hx
    rw [relay_gossip] at hx
    by_cases h0 : msg.ttl ≤ 0
    · rw [if_pos h0] at hx
      exact absurd hx (by simp)
    · rw [if_neg h0] at hx
      obtain ⟨a, _, hax⟩ := List.mem_map.mp hx
      rw [← hax]
      dsimp only
      exact ⟨rfl, by omega, by omega⟩
  · intro y hy
    rw [handle_iwant] at hy
    match hp : parsePayloadIds msgW.payload.toList, hy with
    | none, hy => exact absurd hy (by simp)
    | some ids, hy =>
      obtain ⟨id, _, hfm⟩ := List.mem_filterMap.mp hy
      match hf : find_stored n id, hfm with
      | some e, hfm =>
        rw [Option.map_some'] at hfm
        rw [Option.some_inj] at hfm
        obtain ⟨m', hm1, hm2⟩ := hstore e (find_stored_mem_activeStore hf)
        exact ⟨m', by rw [← hfm, ← hm1], hm2⟩
      | none, hfm => exact absurd hfm (by simp)

/-- Witness for C2 at a fresh node (empty store satisfies the proviso)
relaying a ttl 3 gossip message. -/
theorem C2_ttl_bounds_witness :
    relay_gossip (fun _ => 0) (node_init "u" "a" 3 5 0 20)
      { version := 1, msg_id := "m", msg_type := "GOSSIP", sender_id := "s",
        sender_addr := "b", timestamp_ms := 0, ttl := 0, payload := "p" }
      none = [] :=
  (C2_ttl_bounds (fun _ => 0) (node_init "u" "a" 3 5 0 20)
    { version := 1, msg_id := "m", msg_type := "GOSSIP", sender_id := "s",
      sender_addr := "b", timestamp_ms := 0, ttl := 0, payload := "p" }
    { version := 1, msg_id := "w", msg_type := "IWANT", sender_id := "s",
      sender_addr := "b", timestamp_ms := 0, ttl := 1, payload := "q" }
    none { ip := 1, port := 1 }
    (by
      intro e he
      rw [show activeStore (node_init "u" "a" 3 5 0 20) = [] from rfl] at he
      exact absurd he (by simp))).1 (by decide)

/-- C2 counterexample: a GOSSIP received with ttl = -1 is stored by
handle_gossip, and a later IWANT makes the node send those bytes: a
datagram whose ttl field is -1 < 0. -/
theorem C2_ttl_bounds_counterexample :
    (handle_iwant cnodeNeg iwantReq { ip := 2, port := 2 }).map
      (fun p => (deserialize_message p.2.toList).map (fun m => m.ttl)) = [some (-1)] := by
  decide



theorem count_set_add (l : List Nat) (i v a : Nat) (hi : i < l.length) :
    (l.set i v).count a + (if l[i] = a then 1 else 0)
      = l.count a + (if v = a then 1 else 0) := by
  have hdec : l = l.take i ++ l[i] :: l.drop (i + 1) := by
    conv_lhs => rw [← List.take_append_drop i l]
    rw [List.drop_eq_getElem_cons hi]
  have hset : l.set i v = l.take i ++ v :: l.drop (i + 1) := by
    rw [List.set_eq_take_append_cons_drop, if_pos hi]
  rw [hset]
  conv_rhs => rw [hdec]
  rw [List.count_append, List.count_append, List.count_cons, List.count_cons]
  by_cases h1 : l[i] = a <;> by_cases h2 : v = a <;>
    simp [h1, h2] <;> omega

theorem lswap_perm (l : List Nat) (i j : Nat) : (lswap l i j).Perm l := by
  rw [lswap]
  match hi : l.get? i, hj : l.get? j with
  | none, _ => exact List.Perm.refl l
  | some x, none => exact List.Perm.refl l
  | some x, some y =>
    rw [List.get?_eq_getElem?] at hi hj
    have hil : i < l.length := by
      by_contra hc
      rw [List.getElem?_eq_none (by omega)] at hi
      exact absurd hi (by simp)
    have hjl : j < l.length := by
      by_contra hc
      rw [List.getElem?_eq_none (by omega)] at hj
      exact absurd hj (by simp)
    rw [List.getElem?_eq_getElem hil] at hi
    rw [List.getElem?_eq_getElem hjl] at hj
    have hx : l[i] = x := by injection hi
    have hy : l[j] = y := by injection hj
    refine List.perm_iff_count.mpr (fun a => ?_)
    have hjl2 : j < (l.set i y).length := by
      rw [List.length_set]
      exact hjl
    have h1 := count_set_add (l.set i y) j x a hjl2
    have h2 := count_set_add l i y a hil
    have hgj : (l.set i y)[j] = if i = j then y else l[j] := List.getElem_set hjl2
    by_cases hij : i = j
    · subst hij
      rw [if_pos rfl] at hgj
      rw [hgj] at h1
      rw [hx] at h2
      by_cases ha1 : x = a <;> by_cases ha2 : y = a <;>
        simp [ha1, ha2] at h1 h2 ⊢ <;> omega
    · rw [if_neg hij] at hgj
      rw [hgj, hy] at h1
      rw [hx] at h2
      by_cases ha1 : x = a <;> by_cases ha2 : y = a <;>
        simp [ha1, ha2] at h1 h2 ⊢ <;> omega

theorem fyLoop_perm (randv : Nat → Nat) :
    ∀ (i k : Nat) (idx : List Nat), (fyLoop randv k idx i).Perm idx := by
  intro i
  induction i with
  | zero => intro k idx; exact List.Perm.refl idx
  | succ i ih =>
    intro k idx
    rw [fyLoop]
    exact List.Perm.trans (ih (k + 1) _) (lswap_perm idx (i + 1) _)



theorem addr_inj_of_nodup {l : List peer_info_t}
    (hnd : (l.map (fun p => p.addr)).Nodup) {i j : Nat}
    (hi : i < l.length) (hj : j < l.length)
    (heq : (l.getD i default).addr = (l.getD j default).addr) : i = j := by
  rw [List.getD_eq_getElem l default hi, List.getD_eq_getElem l default hj] at heq
  have hinj := List.nodup_iff_injective_get.mp hnd
  have hi2 : i < (l.map (fun p => p.addr)).length := by
    rw [List.length_map]
    exact hi
  have hj2 : j < (l.map (fun p => p.addr)).length := by
    rw [List.length_map]
    exact hj
  have hmap : (l.map (fun p => p.addr)).get ⟨i, hi2⟩ = (l.map (fun p => p.addr)).get ⟨j, hj2⟩ := by
    simp only [List.get_eq_getElem, List.getElem_map]
    exact heq
  have := hinj hmap
  simpa using this

theorem selLoop_subset (l : List peer_info_t) (cnt : Int) (exclude : Option sockaddr_in) :
    ∀ (order : List Nat) (found : Nat) (a : sockaddr_in),
    a ∈ selLoop l cnt exclude order found →
    (∃ i ∈ order, a = (l.getD i default).addr) ∧
    (∀ e, exclude = some e → ¬(a.port = e.port ∧ a.ip = e.ip)) := by
  intro order
  induction order with
  | nil => intro found a ha; exact absurd ha (by simp [selLoop])
  | cons i rest ih =>
    intro found a ha
    rw [selLoop] at ha
    by_cases hlt : (found : Int) < cnt
    · rw [if_pos hlt] at ha
      match hex : exclude, ha with
      | some e, ha =>
        dsimp only at ha
        by_cases hm : (l.getD i default).addr.port = e.port ∧ (l.getD i default).addr.ip = e.ip
        · rw [if_pos hm] at ha
          obtain ⟨⟨i', hi', ha'⟩, hex'⟩ := ih found a ha
          exact ⟨⟨i', by simp [hi'], ha'⟩, hex'⟩
        · rw [if_neg hm] at ha
          rcases List.mem_cons.mp ha with rfl | ha2
          · refine ⟨⟨i, by simp, rfl⟩, ?_⟩
            rintro e' he'
            rw [Option.some_inj] at he'
            subst he'
            exact hm
          · obtain ⟨⟨i', hi', ha'⟩, hex'⟩ := ih (found + 1) a ha2
            exact ⟨⟨i', by simp [hi'], ha'⟩, hex'⟩
      | none, ha =>
        dsimp only at ha
        rcases List.mem_cons.mp ha with rfl | ha2
        · exact ⟨⟨i, by simp, rfl⟩, by rintro e he; exact absurd he (by simp)⟩
        · obtain ⟨⟨i', hi', ha'⟩, hex'⟩ := ih (found + 1) a ha2
          exact ⟨⟨i', by simp [hi'], ha'⟩, hex'⟩
    · rw [if_neg hlt] at ha
      exact absurd ha (by simp)

theorem selLoop_length (l : List peer_info_t) (cnt : Int) (exclude : Option sockaddr_in) :
    ∀ (order : List Nat) (found : Nat), (found : Int) ≤ cnt →
    (found : Int) + (selLoop l cnt exclude order found).length ≤ cnt := by
  intro order
  induction order with
  | nil => intro found h; simp [selLoop]; exact h
  | cons i rest ih =>
    intro found h
    rw [selLoop]
    by_cases hlt : (found : Int) < cnt
    · rw [if_pos hlt]
      match exclude with
      | some e =>
        dsimp only
        by_cases hm : (l.getD i default).addr.port = e.port ∧ (l.getD i default).addr.ip = e.ip
        · rw [if_pos hm]
          exact ih found (by omega)
        · rw [if_neg hm]
          have := ih (found + 1) (by push_cast; omega)
          simp only [List.length_cons]
          push_cast at this ⊢
          omega
      | none =>
        dsimp only
        have := ih (found + 1) (by push_cast; omega)
        simp only [List.length_cons]
        push_cast at this ⊢
        omega
    · rw [if_neg hlt]
      simp
      omega

theorem selLoop_stop (l : List peer_info_t) (cnt : Int) (exclude : Option sockaddr_in)
    (order : List Nat) (found : Nat) (h : ¬ ((found : Int) < cnt)) :
    selLoop l cnt exclude order found = [] := by
  cases order with
  | nil => rw [selLoop]
  | cons i rest =>
    rw [selLoop, if_neg h]

theorem selLoop_nodup (l : List peer_info_t) (cnt : Int) (exclude : Option sockaddr_in)
    (hnd : (l.map (fun p => p.addr)).Nodup) :
    ∀ (order : List Nat) (found : Nat), order.Nodup →
    (∀ i ∈ order, i < l.length) →
    (selLoop l cnt exclude order found).Nodup := by
  intro order
  induction order with
  | nil => intro found _ _; simp [selLoop]
  | cons i rest ih =>
    intro found hond hltl
    rw [selLoop]
    by_cases hlt : (found : Int) < cnt
    · rw [if_pos hlt]
      have hrest_nd : rest.Nodup := (List.nodup_cons.mp hond).2
      have hrest_lt : ∀ k ∈ rest, k < l.length := fun k hk => hltl k (by simp [hk])
      have hnotin : ∀ f2, (l.getD i default).addr ∉ selLoop l cnt exclude rest f2 := by
        intro f2 hmem
        obtain ⟨⟨i', hi', ha'⟩, _⟩ := selLoop_subset l cnt exclude rest f2 _ hmem
        have : i = i' := addr_inj_of_nodup hnd (hltl i (by simp)) (hrest_lt i' hi') ha'
        subst this
        exact (List.nodup_cons.mp hond).1 hi'
      match exclude with
      | some e =>
        dsimp only
        by_cases hm : (l.getD i default).addr.port = e.port ∧ (l.getD i default).addr.ip = e.ip
        · rw [if_pos hm]
          exact ih found hrest_nd hrest_lt
        · rw [if_neg hm]
          rw [List.nodup_cons]
          exact ⟨hnotin _, ih (found + 1) hrest_nd hrest_lt⟩
      | none =>
        dsimp only
        rw [List.nodup_cons]
        exact ⟨hnotin _, ih (found + 1) hrest_nd hrest_lt⟩
    · rw [if_neg hlt]
      simp

theorem selLoop_complete (l : List peer_info_t) (cnt : Int) (exclude : Option sockaddr_in) :
    ∀ (order : List Nat) (found : Nat), (found : Int) + order.length ≤ cnt →
    ∀ i ∈ order, (∀ e, exclude = some e →
      ¬((l.getD i default).addr.port = e.port ∧ (l.getD i default).addr.ip = e.ip)) →
    (l.getD i default).addr ∈ selLoop l cnt exclude order found := by
  intro order
  induction order with
  | nil => intro found _ i hi; exact absurd hi (by simp)
  | cons j rest ih =>
    intro found hfit i hi hexcl
    have hlt : (found : Int) < cnt := by
      simp only [List.length_cons] at hfit
      push_cast at hfit
      omega
    rw [selLoop, if_pos hlt]
    match hex : exclude with
    | some e =>
      dsimp only
      by_cases hm : (l.getD j default).addr.port = e.port ∧ (l.getD j default).addr.ip = e.ip
      · rw [if_pos hm]
        rcases List.mem_cons.mp hi with rfl | hi2
        · exact absurd hm (hexcl e rfl)
        · refine ih found ?_ i hi2 ?_
          · simp only [List.length_cons] at hfit
            push_cast at hfit ⊢
            omega
          · intro e' he'
            exact hexcl e' he'
      · rw [if_neg hm]
        rcases List.mem_cons.mp hi with rfl | hi2
        · exact List.mem_cons_self _ _
        · refine List.mem_cons_of_mem _ (ih (found + 1) ?_ i hi2 ?_)
          · simp only [List.length_cons] at hfit
            push_cast at hfit ⊢
            omega
          · intro e' he'
            exact hexcl e' he'
    | none =>
      dsimp only
      rcases List.mem_cons.mp hi with rfl | hi2
      · exact List.mem_cons_self _ _
      · refine List.mem_cons_of_mem _ (ih (found + 1) ?_ i hi2 ?_)
        · simp only [List.length_cons] at hfit
          push_cast at hfit ⊢
          omega
        · intro e' he'
          exact hexcl e' he'



/-- C8 (amended): sampling returns pairwise-distinct addresses of the
view, none matching the exclude address, at most max(k,0) of them; and
when the view holds fewer than k peers it returns all peers other than
the excluded one (the excluded peer itself is never returned, which is
where the claim's "returns all of them" failed). -/
theorem C8_sample_spec (randv : Nat → Nat) (m : membership_t) (cnt : Int)
    (exclude : Option sockaddr_in)
    (hnd : (m.list.map (fun p => p.addr)).Nodup) :
    (membership_get_random randv m cnt exclude).Nodup ∧
    (∀ a ∈ membership_get_random randv m cnt exclude,
      a ∈ m.list.map (fun p => p.addr)) ∧
    (∀ e, exclude = some e → ∀ a ∈ membership_get_random randv m cnt exclude,
      ¬(a.port = e.port ∧ a.ip = e.ip)) ∧
    (((membership_get_random randv m cnt exclude).length : Int) ≤ max cnt 0) ∧
    ((m.list.length : Int) < cnt → ∀ p ∈ m.list,
      (∀ e, exclude = some e → ¬(p.addr.port = e.port ∧ p.addr.ip = e.ip)) →
      p.addr ∈ membership_get_random randv m cnt exclude) := by
  rw [membership_get_random]
  by_cases hn0 : m.list.length = 0
  · rw [if_pos hn0]
    refine ⟨by simp, by simp, by simp, by simp, ?_⟩
    intro _ p hp
    rw [List.length_eq_zero.mp hn0] at hp
    exact absurd hp (by simp)
  · rw [if_neg hn0]
    have hperm : (fyLoop randv 0 (List.range m.list.length) (m.list.length - 1)).Perm
        (List.range m.list.length) := fyLoop_perm randv _ 0 _
    have horder : ∀ i ∈ fyLoop randv 0 (List.range m.list.length) (m.list.length - 1),
        i < m.list.length := by
      intro i hi
      have := hperm.mem_iff.mp hi
      exact List.mem_range.mp this
    have hond : (fyLoop randv 0 (List.range m.list.length) (m.list.length - 1)).Nodup :=
      hperm.nodup_iff.mpr (List.nodup_range _)
    refine ⟨?_, ?_, ?_, ?_, ?_⟩
    · exact selLoop_nodup m.list cnt exclude hnd _ 0 hond horder
    · intro a ha
      obtain ⟨⟨i, hi, hai⟩, _⟩ := selLoop_subset m.list cnt exclude _ 0 a ha
      have hil := horder i hi
      rw [hai, List.getD_eq_getElem m.list default hil]
      exact List.mem_map.mpr ⟨m.list[i], List.getElem_mem hil, rfl⟩
    · intro e he a ha
      obtain ⟨_, hex⟩ := selLoop_subset m.list cnt exclude _ 0 a ha
      exact hex e he
    · by_cases hc : (0 : Int) ≤ cnt
      · have := selLoop_length m.list cnt exclude
          (fyLoop randv 0 (List.range m.list.length) (m.list.length - 1)) 0
          (by exact_mod_cast hc)
        push_cast at this
        omega
      · rw [selLoop_stop m.list cnt exclude _ 0 (by omega)]
        simp only [List.length_nil, Nat.cast_zero]
        exact le_max_right cnt 0
    · intro hcnt p hp hexcl
      obtain ⟨i, hil, rfl⟩ := List.mem_iff_getElem.mp hp
      have hgd : m.list.getD i default = m.list[i] := List.getD_eq_getElem m.list default hil
      have hlen : (fyLoop randv 0 (List.range m.list.length) (m.list.length - 1)).length
          = m.list.length := by
        rw [hperm.length_eq, List.length_range]
      have := selLoop_complete m.list cnt exclude _ 0
        (by rw [hlen]; push_cast; omega)
        i (by
          refine hperm.mem_iff.mpr ?_
          exact List.mem_range.mpr hil)
        (by rw [hgd]; exact hexcl)
      rw [hgd] at this
      exact this

/-- Witness for C8 on a two-peer view with one excluded address. -/
theorem C8_sample_spec_witness :
    (membership_get_random (fun _ => 0)
      { list := [{ addr := { ip := 1, port := 1 }, last_seen := 0 },
                 { addr := { ip := 2, port := 2 }, last_seen := 0 }], limit := 20 }
      3 (some { ip := 1, port := 1 })).Nodup :=
  (C8_sample_spec (fun _ => 0)
    { list := [{ addr := { ip := 1, port := 1 }, last_seen := 0 },
               { addr := { ip := 2, port := 2 }, last_seen := 0 }], limit := 20 }
    3 (some { ip := 1, port := 1 }) (by decide)).1

/-- C8 counterexample: with a single-peer view, k = 2 and that peer as
the excluded address, the sample is empty, so it does not return all
peers even though the view holds fewer than k. -/
theorem C8_sample_spec_counterexample :
    membership_get_random (fun _ => 0)
      { list := [{ addr := { ip := 7, port := 9 }, last_seen := 0 }], limit := 20 }
      2 (some { ip := 7, port := 9 }) = [] ∧
    ({ ip := 7, port := 9 } : sockaddr_in) ∈
      ({ list := [{ addr := { ip := 7, port := 9 }, last_seen := 0 }], limit := 20 }
        : membership_t).list.map (fun p => p.addr) := by
  constructor
  · decide
  · simp

theorem abc62_getD_inj : ∀ i, i < 62 → ∀ j, j < 62 →
    abc62.getD i 'x' = abc62.getD j 'x' → i = j := by decide

theorem cid_inj {a b : Nat} (ha : a < 3844) (hb : b < 3844) (h : cid a = cid b) : a = b := by
  rw [cid, cid] at h
  have hl : ([abc62.getD (a / 62) 'x', abc62.getD (a % 62) 'x'] : List Char)
      = [abc62.getD (b / 62) 'x', abc62.getD (b % 62) 'x'] := congrArg String.toList h
  simp only [List.cons.injEq, and_true] at hl
  obtain ⟨h1, h2⟩ := hl
  have e1 := abc62_getD_inj (a / 62) (by omega) (b / 62) (by omega) h1
  have e2 := abc62_getD_inj (a % 62) (by omega) (b % 62) (by omega) h2
  omega

theorem cid_ne_nil (n : Nat) : cid n ≠ "" := by
  rw [cid]
  intro h
  have := congrArg String.toList h
  simp at this

/-- Behaviour of handle_gossip on the seen-set: drop when the id is
found, otherwise write the id at seen_count % MAX_SEEN_MSGS and bump
the counter (store_gossip touches only the gossip store). -/
theorem handle_gossip_seen_char (randv : Nat → Nat) (n : node_t)
    (msg : gossip_msg_t) (snd : sockaddr_in) :
    (seen_lookup n msg.msg_id = true →
      handle_gossip randv n msg snd = (n, false, [])) ∧
    (seen_lookup n msg.msg_id = false →
      (handle_gossip randv n msg snd).2.1 = true ∧
      (handle_gossip randv n msg snd).1.seen_ids
        = n.seen_ids.set (n.seen_count % MAX_SEEN_MSGS) msg.msg_id ∧
      (handle_gossip randv n msg snd).1.seen_count = n.seen_count + 1) := by
  constructor
  · intro hl
    rw [handle_gossip, mark_seen, if_pos hl]
  · intro hl
    rw [handle_gossip, mark_seen, if_neg (by rw [hl]; simp)]
    exact ⟨rfl, rfl, rfl⟩
theorem seen_lookup_of_seenHolds {c0 : Nat} {id : String} {n : node_t}
    (h : seenHolds c0 id n) : seen_lookup n id = true := by
  obtain ⟨hslot, hcnt, _⟩ := h
  rw [seen_lookup, List.any_eq_true]
  refine ⟨c0 % MAX_SEEN_MSGS, ?_, ?_⟩
  · rw [List.mem_range]
    have h1 : c0 % MAX_SEEN_MSGS < MAX_SEEN_MSGS := Nat.mod_lt _ (by norm_num [MAX_SEEN_MSGS])
    have h2 : c0 % MAX_SEEN_MSGS ≤ c0 := Nat.mod_le _ _
    omega
  · have hmm : c0 % MAX_SEEN_MSGS % MAX_SEEN_MSGS = c0 % MAX_SEEN_MSGS := by
      have hM : MAX_SEEN_MSGS = 2000 := rfl
      rw [hM]
      omega
    rw [hmm, hslot]
    simp

theorem seenHolds_step {c0 : Nat} {id : String} {n : node_t}
    (randv : Nat → Nat) (msg : gossip_msg_t) (snd : sockaddr_in)
    (h : seenHolds c0 id n) (hbound : n.seen_count < c0 + MAX_SEEN_MSGS) :
    seenHolds c0 id (handle_gossip randv n msg snd).1 ∧
    (handle_gossip randv n msg snd).1.seen_count ≤ n.seen_count + 1 := by
  obtain ⟨hslot, hcnt, hlen⟩ := h
  by_cases hl : seen_lookup n msg.msg_id = true
  · rw [(handle_gossip_seen_char randv n msg snd).1 hl]
    dsimp only
    exact ⟨⟨hslot, hcnt, hlen⟩, by omega⟩
  · obtain ⟨_, hids, hcnt'⟩ := (handle_gossip_seen_char randv n msg snd).2
      (by simpa using hl)
    refine ⟨⟨?_, by omega, by rw [hids, List.length_set]; exact hlen⟩, by omega⟩
    rw [hids]
    have hne : n.seen_count % MAX_SEEN_MSGS ≠ c0 % MAX_SEEN_MSGS := by
      have hM : MAX_SEEN_MSGS = 2000 := rfl
      rw [hM] at hbound ⊢
      omega
    rw [List.getD_eq_getElem?_getD, List.getElem?_set_ne hne,
        ← List.getD_eq_getElem?_getD]
    exact hslot

theorem seenHolds_run {c0 : Nat} {id : String} (randv : Nat → Nat) :
    ∀ (later : List (gossip_msg_t × sockaddr_in)) (n : node_t),
    seenHolds c0 id n → n.seen_count + later.length ≤ c0 + MAX_SEEN_MSGS →
    seenHolds c0 id (run_gossips randv n later) := by
  intro later
  induction later with
  | nil => intro n h _; exact h
  | cons p rest ih =>
    intro n h hbound
    rw [run_gossips]
    simp only [List.length_cons] at hbound
    obtain ⟨h', hstep⟩ := seenHolds_step randv p.1 p.2 h (by omega)
    exact ih _ h' (by omega)
theorem run_gossips_append (randv : Nat → Nat) :
    ∀ (l1 l2 : List (gossip_msg_t × sockaddr_in)) (n : node_t),
    run_gossips randv n (l1 ++ l2) = run_gossips randv (run_gossips randv n l1) l2 := by
  intro l1
  induction l1 with
  | nil => intro l2 n; rfl
  | cons p rest ih =>
    intro l2 n
    rw [List.cons_append, run_gossips, run_gossips, ih]

theorem getD_replicate (k : Nat) :
    (List.replicate MAX_SEEN_MSGS "").getD k "" = "" := by
  rw [List.getD_eq_getElem?_getD, List.getElem?_replicate]
  by_cases hk : k < MAX_SEEN_MSGS
  · rw [if_pos hk]
    rfl
  · rw [if_neg hk]
    rfl

theorem cid_ne_of_ne {a b : Nat} (ha : a < 3844) (hb : b < 3844) (hne : a ≠ b) :
    cid a ≠ cid b := fun h => hne (cid_inj ha hb h)

theorem runChar : ∀ n, n ≤ 2000 →
    (run_gossips rv0 s1node (traceN n)).seen_count = n + 1 ∧
    (run_gossips rv0 s1node (traceN n)).seen_ids.length = MAX_SEEN_MSGS ∧
    ∀ k, k < 2000 → (run_gossips rv0 s1node (traceN n)).seen_ids.getD k "" = seenAt n k := by
  intro n
  induction n with
  | zero =>
    intro _
    have hl : seen_lookup s0node (gmsg (cid 2024)).msg_id = false := by decide
    obtain ⟨_, hids, hcnt⟩ := (handle_gossip_seen_char rv0 s0node (gmsg (cid 2024)) sAddr).2 hl
    have hrun : run_gossips rv0 s1node (traceN 0) = s1node := rfl
    rw [hrun, s1node]
    refine ⟨by rw [hcnt]; rfl, by rw [hids]; simp [s0node, node_init], ?_⟩
    intro k hk
    rw [hids]
    show ((s0node.seen_ids.set (s0node.seen_count % MAX_SEEN_MSGS) (gmsg (cid 2024)).msg_id)).getD k ""
      = seenAt 0 k
    have hcm : s0node.seen_count % MAX_SEEN_MSGS = 0 := rfl
    rw [hcm]
    have hlen0 : s0node.seen_ids = List.replicate MAX_SEEN_MSGS "" := rfl
    rw [hlen0]
    by_cases hk0 : k = 0
    · subst hk0
      rw [List.getD_eq_getElem?_getD, List.getElem?_set_self (by simp [MAX_SEEN_MSGS])]
      rw [seenAt]
      rfl
    · rw [List.getD_eq_getElem?_getD, List.getElem?_set_ne (fun h => hk0 h.symm),
          ← List.getD_eq_getElem?_getD, getD_replicate]
      rw [seenAt, if_neg hk0, if_neg (by omega)]
  | succ n ih =>
    intro hn
    obtain ⟨hcnt, hlen, hchar⟩ := ih (by omega)
    have htr : traceN (n + 1) = traceN n ++ [(gmsg (cid n), sAddr)] := by
      rw [traceN, traceN, List.range_succ, List.map_append]
      rfl
    rw [htr, run_gossips_append]
    set S := run_gossips rv0 s1node (traceN n) with hS
    have hstep : run_gossips rv0 S [(gmsg (cid n), sAddr)]
        = (handle_gossip rv0 S (gmsg (cid n)) sAddr).1 := rfl
    rw [hstep]
    have hlook : seen_lookup S (gmsg (cid n)).msg_id = false := by
      rw [seen_lookup, List.any_eq_false]
      intro i hi
      rw [List.mem_range] at hi
      rw [hcnt] at hi
      have hi2000 : i < 2000 := by
        have : min (n + 1) MAX_SEEN_MSGS ≤ MAX_SEEN_MSGS := Nat.min_le_right _ _
        have hM : MAX_SEEN_MSGS = 2000 := rfl
        omega
      have him : i % MAX_SEEN_MSGS = i := Nat.mod_eq_of_lt (by
        have hM : MAX_SEEN_MSGS = 2000 := rfl
        omega)
      rw [him, hchar i hi2000]
      have hin1 : i < n + 1 := by
        have : min (n + 1) MAX_SEEN_MSGS = n + 1 := by
          have hM : MAX_SEEN_MSGS = 2000 := rfl
          omega
        omega
      rw [beq_iff_eq]
      rw [seenAt]
      by_cases hi0 : i = 0
      · rw [if_pos hi0, if_pos (by omega)]
        show ¬ (cid 2024 = (gmsg (cid n)).msg_id)
        exact cid_ne_of_ne (by omega) (by omega) (by omega)
      · rw [if_neg hi0, if_pos (by omega)]
        show ¬ (cid (i - 1) = (gmsg (cid n)).msg_id)
        exact cid_ne_of_ne (by omega) (by omega) (by omega)
    obtain ⟨_, hids, hcnt'⟩ := (handle_gossip_seen_char rv0 S (gmsg (cid n)) sAddr).2 hlook
    refine ⟨by rw [hcnt', hcnt], by rw [hids, List.length_set]; exact hlen, ?_⟩
    intro k hk
    rw [hids, hcnt]
    have hslot : (n + 1) % MAX_SEEN_MSGS = if n = 1999 then 0 else n + 1 := by
      have hM : MAX_SEEN_MSGS = 2000 := rfl
      by_cases h19 : n = 1999
      · rw [if_pos h19, h19, hM]
      · rw [if_neg h19, hM]
        omega
    by_cases hkslot : k = (n + 1) % MAX_SEEN_MSGS
    · subst hkslot
      rw [List.getD_eq_getElem?_getD, List.getElem?_set_self (by
        rw [hlen]
        exact Nat.mod_lt _ (by norm_num [MAX_SEEN_MSGS]))]
      simp only [Option.getD_some]
      rw [hslot]
      by_cases h19 : n = 1999
      · rw [if_pos h19, seenAt, if_pos rfl, if_neg (by omega), h19]
        rfl
      · rw [if_neg h19, seenAt, if_neg (by omega), if_pos (by omega)]
        simp only [Nat.add_sub_cancel]
        rfl
    · rw [List.getD_eq_getElem?_getD, List.getElem?_set_ne (fun h => hkslot h.symm),
          ← List.getD_eq_getElem?_getD, hchar k hk]
      rw [hslot] at hkslot
      rw [seenAt, seenAt]
      by_cases hk0 : k = 0
      · subst hk0
        rw [if_pos rfl, if_pos rfl]
        have h19 : n ≠ 1999 := by
          intro h
          exact hkslot (by rw [if_pos h])
        rw [if_pos (by omega), if_pos (by omega)]
      · rw [if_neg hk0, if_neg hk0]
        have hkn1 : k ≠ n + 1 := by
          intro h
          by_cases h19 : n = 1999
          · omega
          · exact hkslot (by rw [if_neg h19]; exact h)
        by_cases hkn : k ≤ n
        · rw [if_pos hkn, if_pos (by omega)]
        · rw [if_neg hkn, if_neg (by omega)]
/-- C1 (amended): once handle_gossip has executed its new branch for a
msg_id, any later GOSSIP with the same msg_id is dropped by the
seen-set test as long as fewer than MAX_SEEN_MSGS = 2000 further
handle_gossip calls have occurred since (each call inserts at most one
id, and the ring slot holding the id is only rewritten after 2000
subsequent insertions).  The length hypothesis is the node_t invariant
established by node_init's zeroed 2000-slot array. -/
theorem C1_dedup_until_eviction (randv randv2 randv3 : Nat → Nat)
    (n : node_t) (msg msg2 : gossip_msg_t) (snd snd2 : sockaddr_in)
    (later : List (gossip_msg_t × sockaddr_in))
    (hlen : n.seen_ids.length = MAX_SEEN_MSGS)
    (hid : msg2.msg_id = msg.msg_id)
    (hnew : (handle_gossip randv n msg snd).2.1 = true)
    (hlater : later.length < MAX_SEEN_MSGS) :
    handle_gossip randv3
      (run_gossips randv2 (handle_gossip randv n msg snd).1 later) msg2 snd2
      = (run_gossips randv2 (handle_gossip randv n msg snd).1 later, false, []) := by
  have hl : seen_lookup n msg.msg_id = false := by
    by_contra hc
    rw [(handle_gossip_seen_char randv n msg snd).1 (by simpa using hc)] at hnew
    exact absurd hnew (by simp)
  obtain ⟨_, hids, hcnt⟩ := (handle_gossip_seen_char randv n msg snd).2 hl
  have hholds : seenHolds n.seen_count msg.msg_id (handle_gossip randv n msg snd).1 := by
    refine ⟨?_, by omega, by rw [hids, List.length_set]; exact hlen⟩
    rw [hids, List.getD_eq_getElem?_getD]
    have hlt : n.seen_count % MAX_SEEN_MSGS < n.seen_ids.length := by
      rw [hlen]
      exact Nat.mod_lt _ (by norm_num [MAX_SEEN_MSGS])
    rw [List.getElem?_set_self hlt]
    simp
  have hafter := seenHolds_run randv2 later _ hholds (by omega)
  rw [(handle_gossip_seen_char randv3 _ msg2 snd2).1
    (by rw [hid]; exact seen_lookup_of_seenHolds hafter)]
/-- C1 counterexample: the "at most once per msg_id" claim fails after
ring eviction.  The victim id cid 2024 triggers the new branch on a
fresh node, then after exactly MAX_SEEN_MSGS = 2000 further distinct
gossip messages its ring slot has been overwritten, and a replay of the
same msg_id triggers the new branch a second time. -/
theorem C1_counterexample :
    (handle_gossip rv0 s0node (gmsg (cid 2024)) sAddr).2.1 = true ∧
    (handle_gossip rv0 (run_gossips rv0 s1node (traceN 2000)) (gmsg (cid 2024)) sAddr).2.1 = true := by
  obtain ⟨hcnt, hlen, hchar⟩ := runChar 2000 (by omega)
  constructor
  · exact ((handle_gossip_seen_char rv0 s0node (gmsg (cid 2024)) sAddr).2 (by decide)).1
  · refine ((handle_gossip_seen_char rv0 _ (gmsg (cid 2024)) sAddr).2 ?_).1
    rw [seen_lookup, List.any_eq_false]
    intro i hi
    rw [List.mem_range, hcnt] at hi
    have hi2000 : i < 2000 := by
      have hM : MAX_SEEN_MSGS = 2000 := rfl
      omega
    have him : i % MAX_SEEN_MSGS = i := Nat.mod_eq_of_lt (by
      have hM : MAX_SEEN_MSGS = 2000 := rfl
      omega)
    rw [him, hchar i hi2000, beq_iff_eq, seenAt]
    by_cases hi0 : i = 0
    · rw [if_pos hi0, if_neg (by omega)]
      show ¬ (cid 1999 = (gmsg (cid 2024)).msg_id)
      exact cid_ne_of_ne (by omega) (by omega) (by omega)
    · rw [if_neg hi0, if_pos (by omega)]
      show ¬ (cid (i - 1) = (gmsg (cid 2024)).msg_id)
      exact cid_ne_of_ne (by omega) (by omega) (by omega)
theorem C1_dedup_until_eviction_witness :
    s0node.seen_ids.length = MAX_SEEN_MSGS ∧
    (handle_gossip rv0 s0node (gmsg (cid 7)) sAddr).2.1 = true ∧
    ([] : List (gossip_msg_t × sockaddr_in)).length < MAX_SEEN_MSGS ∧
    handle_gossip rv0
      (run_gossips rv0 (handle_gossip rv0 s0node (gmsg (cid 7)) sAddr).1 [])
      (gmsg (cid 7)) sAddr
      = (run_gossips rv0 (handle_gossip rv0 s0node (gmsg (cid 7)) sAddr).1 [], false, []) :=
  ⟨by simp [s0node, node_init], by decide, by decide,
   C1_dedup_until_eviction rv0 rv0 rv0 s0node (gmsg (cid 7)) (gmsg (cid 7)) sAddr sAddr []
     (by simp [s0node, node_init]) rfl (by decide) (by decide)⟩

/-- findSome? skips a prefix on which the function returns none. -/
theorem findSome_append_none {α β : Type} {f : α → Option β} :
    ∀ {l1 l2 : List α}, (∀ x ∈ l1, f x = none) →
    (l1 ++ l2).findSome? f = l2.findSome? f := by
  intro l1
  induction l1 with
  | nil => intro l2 _; simp
  | cons a t ih =>
    intro l2 h
    rw [List.cons_append, List.findSome?_cons, h a (by simp)]
    exact ih (fun x hx => h x (by simp [hx]))

/-- Unfolding of handle_gossip when the id is new. -/
theorem handle_gossip_new (randv : Nat → Nat) (n : node_t) (msg : gossip_msg_t)
    (sender : sockaddr_in) (hl : seen_lookup n msg.msg_id = false) :
    handle_gossip randv n msg sender
      = (store_gossip
          { n with seen_ids := n.seen_ids.set (n.seen_count % MAX_SEEN_MSGS) msg.msg_id,
                   seen_count := n.seen_count + 1 } msg,
         true,
         relay_gossip randv
          (store_gossip
            { n with seen_ids := n.seen_ids.set (n.seen_count % MAX_SEEN_MSGS) msg.msg_id,
                     seen_count := n.seen_count + 1 } msg)
          msg (some sender)) := by
  rw [handle_gossip, mark_seen, if_neg (by rw [hl]; simp)]

theorem findSome_none {α β : Type} {f : α → Option β} :
    ∀ {l : List α}, (∀ x ∈ l, f x = none) → l.findSome? f = none := by
  intro l
  induction l with
  | nil => intro _; rfl
  | cons a t ih =>
    intro h
    rw [List.findSome?_cons, h a (by simp)]
    exact ih (fun x hx => h x (by simp [hx]))

/-- findSome? over an index range whose only possible hit is slot s. -/
theorem findSome_range_unique {β : Type} (N s : Nat) (f : Nat → Option β)
    (hs : s < N) (hnone : ∀ i, i < N → i ≠ s → f i = none) :
    (List.range N).findSome? f = f s := by
  have hdecomp : List.range N
      = List.range s ++ s :: (List.range (N - s - 1)).map (fun x => s + (1 + x)) := by
    have h1 : N = s + (N - s) := by omega
    conv_lhs => rw [h1, List.range_add]
    have h2 : N - s = 1 + (N - s - 1) := by omega
    have hr1 : List.range 1 = [0] := by decide
    rw [h2, List.range_add, hr1]
    simp [List.map_map, Function.comp]
    exact fun a _ => by omega
  rw [hdecomp,
      findSome_append_none (fun i hi => hnone i (by
        rw [List.mem_range] at hi
        omega) (by
        rw [List.mem_range] at hi
        omega)),
      List.findSome?_cons]
  cases hfs : f s with
  | some e => rfl
  | none =>
    rw [findSome_none (fun x hx => ?_)]
    obtain ⟨y, hy, hxy⟩ := List.mem_map.mp hx
    rw [List.mem_range] at hy
    exact hnone x (by omega) (by omega)

/-- After store_gossip on a store whose active cells do not hold the id,
the id looks up to exactly the freshly written cell, wrapped or not. -/
theorem store_gossip_find (n : node_t) (m : gossip_msg_t)
    (hlen : n.gossip_store.length = MAX_STORED_GOSSIP)
    (hid127 : m.msg_id.toList.length ≤ ID_LEN - 1)
    (hfresh : ∀ e ∈ activeStore n, e.1 ≠ m.msg_id) :
    find_stored (store_gossip n m) m.msg_id
      = some (m.msg_id,
              String.mk ((serialize_message m).take (MAX_SERIALIZED_LEN - 1))) := by
  have hidEq : String.mk (m.msg_id.toList.take (ID_LEN - 1)) = m.msg_id := by
    rw [take_of_le hid127, mk_toList_eq]
  have hM : MAX_STORED_GOSSIP = 500 := rfl
  rw [find_stored, store_gossip]
  dsimp only
  have hsN : n.gossip_store_count % MAX_STORED_GOSSIP
      < min (n.gossip_store_count + 1) MAX_STORED_GOSSIP := by
    rw [hM]
    omega
  rw [findSome_range_unique _ (n.gossip_store_count % MAX_STORED_GOSSIP) _
    hsN (fun i hiN hine => ?_)]
  · have hlt : n.gossip_store_count % MAX_STORED_GOSSIP < n.gossip_store.length := by
      rw [hlen, hM]
      omega
    rw [List.getD_eq_getElem?_getD, List.getElem?_set_self hlt]
    dsimp only [Option.getD_some]
    rw [hidEq]
    rw [if_pos (by simp)]
  · rw [List.getD_eq_getElem?_getD, List.getElem?_set_ne (fun h => hine h.symm),
        ← List.getD_eq_getElem?_getD]
    have hiact : i < min n.gossip_store_count MAX_STORED_GOSSIP := by
      rw [hM]
      rw [hM] at hiN hine
      omega
    have hmem : n.gossip_store.getD i ("", "") ∈ activeStore n := by
      rw [activeStore]
      exact List.mem_map.mpr ⟨i, by rw [List.mem_range]; exact hiact, rfl⟩
    have hne := hfresh _ hmem
    rw [if_neg (by simpa using hne)]

/-- C5 (amended): when a canonical well-formed envelope arrives on the
wire, the listener stores bytes identical to the received transmission,
and a later IWANT for its msg_id re-sends exactly those bytes to the
requester; requested ids absent from the store produce no send. -/
theorem C5_store_replay (randv : Nat → Nat) (n : node_t) (m : gossip_msg_t)
    (sender requester : sockaddr_in) (req : gossip_msg_t)
    (hid_q : ∀ c ∈ m.msg_id.toList, c ≠ qC)
    (hid_len : m.msg_id.toList.length ≤ 127) (hid_ne : m.msg_id.toList ≠ [])
    (hty_q : ∀ c ∈ m.msg_type.toList, c ≠ qC)
    (hty_len : m.msg_type.toList.length ≤ 31) (hty_ne : m.msg_type.toList ≠ [])
    (hsid_q : ∀ c ∈ m.sender_id.toList, c ≠ qC)
    (hsid_len : m.sender_id.toList.length ≤ 63) (hsid_ne : m.sender_id.toList ≠ [])
    (hsad_q : ∀ c ∈ m.sender_addr.toList, c ≠ qC)
    (hsad_len : m.sender_addr.toList.length ≤ 63) (hsad_ne : m.sender_addr.toList ≠ [])
    (hts : m.timestamp_ms < 2 ^ 64)
    (hpl_ne : m.payload.toList ≠ []) (hpl_len : m.payload.toList.length ≤ 8191)
    (hpl_trim : trimTrail m.payload.toList = m.payload.toList)
    (hser_len : (serialize_message m).length ≤ MAX_SERIALIZED_LEN - 1)
    (hunseen : seen_lookup n m.msg_id = false)
    (hslen : n.gossip_store.length = MAX_STORED_GOSSIP)
    (hfresh : ∀ e ∈ activeStore n, e.1 ≠ m.msg_id)
    (hreq : parsePayloadIds req.payload.toList = some [m.msg_id]) :
    (listen_gossip randv n (serialize_message m) sender).2.1 = true ∧
    handle_iwant (listen_gossip randv n (serialize_message m) sender).1 req requester
      = [(requester, String.mk (serialize_message m))] ∧
    ∀ (req2 : gossip_msg_t) (r2 : sockaddr_in) (j : String),
      parsePayloadIds req2.payload.toList = some [j] →
      find_stored (listen_gossip randv n (serialize_message m) sender).1 j = none →
      handle_iwant (listen_gossip randv n (serialize_message m) sender).1 req2 r2 = [] := by
  have hdes : deserialize_message (serialize_message m) = some m :=
    deserialize_serialize m hid_q hid_len hid_ne hty_q hty_len hty_ne hsid_q hsid_len
      hsid_ne hsad_q hsad_len hsad_ne hts hpl_ne hpl_len hpl_trim
  have hlg : listen_gossip randv n (serialize_message m) sender
      = handle_gossip randv n m sender := by
    rw [listen_gossip, hdes]
  rw [hlg, handle_gossip_new randv n m sender hunseen]
  dsimp only
  have hfind : find_stored
      (store_gossip
        { n with seen_ids := n.seen_ids.set (n.seen_count % MAX_SEEN_MSGS) m.msg_id,
                 seen_count := n.seen_count + 1 } m) m.msg_id
      = some (m.msg_id,
              String.mk ((serialize_message m).take (MAX_SERIALIZED_LEN - 1))) := by
    exact store_gossip_find _ m hslen (by
        have h127 : ID_LEN - 1 = 127 := rfl
        omega) hfresh
  refine ⟨rfl, ?_, ?_⟩
  · rw [handle_iwant, hreq]
    simp only [List.filterMap_cons, List.filterMap_nil, hfind, Option.map_some']
    rw [take_of_le hser_len]
  · intro req2 r2 j hp2 hnone
    rw [handle_iwant, hp2]
    simp only [List.filterMap_cons, List.filterMap_nil, hnone, Option.map_none']

theorem C5_store_replay_witness :
    (listen_gossip rv0 s0node (serialize_message m5) sAddr).2.1 = true ∧
    handle_iwant (listen_gossip rv0 s0node (serialize_message m5) sAddr).1 iwantReq
      { ip := 2, port := 2 }
      = [({ ip := 2, port := 2 }, String.mk (serialize_message m5))] :=
  ⟨(C5_store_replay rv0 s0node m5 sAddr { ip := 2, port := 2 } iwantReq
      (by decide) (by decide) (by decide) (by decide) (by decide) (by decide)
      (by decide) (by decide) (by decide) (by decide) (by decide) (by decide)
      (by decide) (by decide) (by decide) (by decide) (by decide) (by decide)
      (by simp [s0node, node_init]) (by decide) (by decide)).1,
   (C5_store_replay rv0 s0node m5 sAddr { ip := 2, port := 2 } iwantReq
      (by decide) (by decide) (by decide) (by decide) (by decide) (by decide)
      (by decide) (by decide) (by decide) (by decide) (by decide) (by decide)
      (by decide) (by decide) (by decide) (by decide) (by decide) (by decide)
      (by simp [s0node, node_init]) (by decide) (by decide)).2.1⟩

/-- C5 counterexample: a payload with trailing whitespace is trimmed by
the decoder before storage, so the bytes that handle_iwant re-sends
differ from the original on-wire transmission. -/
theorem C5_counterexample :
    (handle_iwant (listen_gossip rv0 s0node (serialize_message m5sp) sAddr).1 iwantReq
        { ip := 2, port := 2 }).map (fun p => p.2)
      = [String.mk (serialize_message m5)] ∧
    serialize_message m5 ≠ serialize_message m5sp := by
  exact ⟨by decide, by decide⟩
theorem toList_mk (l : List Char) : (String.mk l).toList = l := rfl
theorem joinQsep_length_ge : ∀ ids : List String, ids.length ≤ (joinQsep ids).length := by
  intro ids
  induction ids with
  | nil => simp [joinQsep]
  | cons i is ih =>
    simp only [joinQsep, List.length_cons, List.length_append]
    omega

theorem joinQ_length_ge (ids : List String) : ids.length ≤ (joinQ ids).length := by
  cases ids with
  | nil => simp [joinQ]
  | cons i is =>
    have := joinQsep_length_ge is
    simp only [joinQ, List.length_cons, List.length_append]
    omega

/-- The scanner ignores a leading comma. -/
theorem idLoopAux_comma (f : Nat) (l : List Char) :
    idLoopAux f (',' :: l) = idLoopAux f l := by
  cases f with
  | zero => rfl
  | succ f =>
    simp only [idLoopAux]
    rw [List.dropWhile_cons_of_pos (by decide)]

/-- Every id the scanner emits is quote-free and at most ID_LEN - 1
characters long. -/
theorem idLoopAux_mem_wf : ∀ (fuel : Nat) (l : List Char) (id : String),
    id ∈ idLoopAux fuel l →
    id.toList.length ≤ ID_LEN - 1 ∧ ∀ c ∈ id.toList, c ≠ qC := by
  intro fuel
  induction fuel with
  | zero => intro l id hid; exact absurd hid (by simp [idLoopAux])
  | succ f ih =>
    intro l id hid
    rw [idLoopAux] at hid
    match hd : l.dropWhile (fun c => c == ' ' || c == ',' || c == Char.ofNat 10), hid with
    | [], hid => exact absurd hid (by simp)
    | c :: rest, hid =>
      dsimp only at hid
      by_cases h93 : c = Char.ofNat 93
      · rw [if_pos h93] at hid
        exact absurd hid (by simp)
      · rw [if_neg h93] at hid
        by_cases hq : c = qC
        · rw [if_pos hq] at hid
          rcases List.mem_cons.mp hid with heq | hmem
          · subst heq
            constructor
            · exact List.length_take_le _ _
            · intro ch hch
              have h1 := List.mem_of_mem_take hch
              have h2 := List.mem_takeWhile_imp h1
              simpa using h2
          · exact ih _ id hmem
        · rw [if_neg hq] at hid
          exact ih _ id hid

/-- Scanning a canonical quoted join terminated by a closing bracket
recovers exactly the joined ids. -/
theorem idLoop_joinQ : ∀ (ids : List String),
    (∀ id ∈ ids, id.toList.length ≤ ID_LEN - 1 ∧ ∀ c ∈ id.toList, c ≠ qC) →
    ∀ (fuel : Nat), ids.length + 1 ≤ fuel → ∀ (suf : List Char),
    idLoopAux fuel (joinQ ids ++ Char.ofNat 93 :: suf) = ids := by
  intro ids
  induction ids with
  | nil =>
    intro _ fuel hf suf
    match fuel, hf with
    | f + 1, _ =>
      simp only [idLoopAux, joinQ, List.nil_append]
      rw [List.dropWhile_cons_of_neg (by decide)]
      dsimp only
      rw [if_pos rfl]
  | cons i is ih =>
    intro hwf fuel hf suf
    match fuel, hf with
    | f + 1, hf =>
      obtain ⟨hilen, hiq⟩ := hwf i (by simp)
      simp only [idLoopAux, joinQ]
      rw [List.cons_append, List.dropWhile_cons_of_neg (by decide)]
      dsimp only
      rw [if_neg (by decide), if_pos rfl]
      have hassoc : (i.toList ++ qC :: joinQsep is) ++ Char.ofNat 93 :: suf
          = i.toList ++ qC :: (joinQsep is ++ Char.ofNat 93 :: suf) := by
        simp [List.append_assoc]
      rw [hassoc]
      have htw : (i.toList ++ qC :: (joinQsep is ++ Char.ofNat 93 :: suf)).takeWhile
            (fun c2 => c2 ≠ qC) = i.toList := by
        rw [takeWhile_append_all (fun c hc => by simpa using hiq c hc)]
        rw [List.takeWhile_cons_of_neg (by simp)]
        simp
      rw [htw]
      have h127 : i.toList.length ≤ ID_LEN - 1 := hilen
      rw [take_of_le h127]
      rw [List.drop_left]
      dsimp only
      rw [if_pos rfl]
      have hlen' : is.length + 1 ≤ f := by
        simp only [List.length_cons] at hf
        omega
      have hX : idLoopAux f (joinQsep is ++ Char.ofNat 93 :: suf) = is := by
        cases is with
        | nil =>
          have h0 := ih (fun id hid => absurd hid (by simp)) f hlen' suf
          simpa [joinQ, joinQsep] using h0
        | cons j js =>
          have hsep : joinQsep (j :: js) = ',' :: joinQ (j :: js) := rfl
          rw [hsep, List.cons_append, idLoopAux_comma]
          exact ih (fun id hid => hwf id (List.mem_cons_of_mem i hid)) f hlen' suf
      rw [hX, mk_toList_eq]

/-- The strncat fold of handle_ihave, started mid-way, appends the
comma-prefixed join when the buffer bound is never hit. -/
theorem buildFold : ∀ (want : List String) (acc : List Char) (k : Nat), 0 < k →
    acc.length + (joinQsep want).length ≤ MSG_BUF_SIZE - 1 →
    (want.foldl
      (fun (p : List Char × Nat) id =>
        let acc1 := if p.2 > 0 then strncatB p.1 [','] else p.1
        (strncatB acc1 (qC :: id.toList ++ [qC]), p.2 + 1))
      (acc, k)).1 = acc ++ joinQsep want := by
  intro want
  induction want with
  | nil => intro acc k _ _; simp [joinQsep]
  | cons i is ih =>
    intro acc k hk hfit
    have hlensep : (joinQsep (i :: is)).length
        = i.toList.length + 3 + (joinQsep is).length := by
      simp only [joinQsep, List.length_cons, List.length_append]
      omega
    have hB : MSG_BUF_SIZE = 8192 := rfl
    rw [List.foldl_cons]
    dsimp only
    rw [if_pos (by omega)]
    have h1 : strncatB acc [','] = acc ++ [','] := by
      rw [strncatB, take_of_le (by simp only [List.length_cons, List.length_nil]; omega)]
    rw [h1]
    have h2 : strncatB (acc ++ [',']) (qC :: i.toList ++ [qC])
        = (acc ++ [',']) ++ (qC :: i.toList ++ [qC]) := by
      rw [strncatB, take_of_le (by
        simp only [List.length_cons, List.length_append, List.length_nil]
        omega)]
    rw [h2]
    rw [ih ((acc ++ [',']) ++ (qC :: i.toList ++ [qC])) (k + 1) (by omega) (by
      simp only [List.length_cons, List.length_append, List.length_nil]
      omega)]
    simp [joinQsep, List.append_assoc]

/-- In-bounds strncat accumulation equals the plain quoted join. -/
theorem buildWantIds_eq_joinQ (want : List String) (hw : want ≠ [])
    (hfit : (joinQ want).length ≤ MSG_BUF_SIZE - 1) :
    buildWantIds want = joinQ want := by
  match want, hw with
  | i :: is, _ =>
    have hlenQ : (joinQ (i :: is)).length
        = i.toList.length + 2 + (joinQsep is).length := by
      simp only [joinQ, List.length_cons, List.length_append]
      omega
    have hB : MSG_BUF_SIZE = 8192 := rfl
    rw [buildWantIds, List.foldl_cons]
    dsimp only
    rw [if_neg (by omega)]
    have h1 : strncatB [] (qC :: i.toList ++ [qC]) = qC :: i.toList ++ [qC] := by
      rw [strncatB, take_of_le (by
        simp only [List.length_cons, List.length_append, List.length_nil]
        omega)]
      simp
    rw [h1]
    rw [buildFold is (qC :: i.toList ++ [qC]) 1 (by omega) (by
      simp only [List.length_cons, List.length_append, List.length_nil]
      omega)]
    simp [joinQ, joinQsep, List.append_assoc]

/-- Ids returned by parsePayloadIds are quote-free and capped. -/
theorem parsePayloadIds_wf {p : List Char} {L : List String}
    (h : parsePayloadIds p = some L) :
    ∀ id ∈ L, id.toList.length ≤ ID_LEN - 1 ∧ ∀ c ∈ id.toList, c ≠ qC := by
  rw [parsePayloadIds] at h
  match hs : strstrAfter (("\"ids\":").toList) p, h with
  | none, h => exact absurd h (by simp)
  | some afterKey, h =>
    dsimp only at h
    match hd : afterKey.dropWhile (fun c => c ≠ Char.ofNat 91), h with
    | [], h => exact absurd h (by simp)
    | c :: arr, h =>
      dsimp only at h
      simp only [Option.some_inj] at h
      subst h
      exact fun id hid => idLoopAux_mem_wf _ _ id hid

/-- The IWANT payload that handle_ihave builds parses back to exactly
the joined ids. -/
theorem parse_iwant_payload (want : List String)
    (hwf : ∀ id ∈ want, id.toList.length ≤ ID_LEN - 1 ∧ ∀ c ∈ id.toList, c ≠ qC) :
    parsePayloadIds ((("\x7b \"ids\": [").toList) ++ joinQ want ++ (("] \x7d").toList))
      = some want := by
  have hform : (("\x7b \"ids\": [").toList : List Char) ++ joinQ want ++ (("] \x7d").toList)
      = ("\x7b ").toList ++ ((("\"ids\":").toList)
          ++ (' ' :: Char.ofNat 91 :: (joinQ want ++ (Char.ofNat 93 :: (' ' :: [Char.ofNat 125]))))) := by
    have hpre : (("\x7b \"ids\": [").toList : List Char)
        = ("\x7b ").toList ++ (("\"ids\":").toList ++ [' ', Char.ofNat 91]) := by decide
    have hsuf : (("] \x7d").toList : List Char)
        = Char.ofNat 93 :: (' ' :: [Char.ofNat 125]) := by decide
    rw [hpre, hsuf]
    simp [List.append_assoc]
  rw [hform, parsePayloadIds]
  have hno : NoOccIn (("\"ids\":").toList) (("\x7b ").toList)
      ((("\"ids\":").toList)
        ++ (' ' :: Char.ofNat 91 :: (joinQ want ++ (Char.ofNat 93 :: (' ' :: [Char.ofNat 125]))))) := by
    have hR := @NoOccIn_of_litSelfRefutes (("\"ids\":").toList)
      (("\x7b ").toList) (by decide)
    exact hR _
  have hstr := strstrAfter_append (("\"ids\":").toList) (by decide)
      (("\x7b ").toList)
      (' ' :: Char.ofNat 91 :: (joinQ want ++ (Char.ofNat 93 :: (' ' :: [Char.ofNat 125])))) hno
  rw [hstr]
  dsimp only
  rw [List.dropWhile_cons_of_pos (by decide), List.dropWhile_cons_of_neg (by decide)]
  have hfuel : want.length + 1
      ≤ (joinQ want ++ (Char.ofNat 93 :: (' ' :: [Char.ofNat 125]))).length + 1 := by
    have hge := joinQ_length_ge want
    simp only [List.length_append, List.length_cons]
    omega
  exact congrArg some (idLoop_joinQ want hwf _ hfuel _)

/-- C9 (amended): handle_ihave answers an IHAVE whose payload parses to
ids L with at most one IWANT: none when every advertised id is already
seen, otherwise exactly one IWANT to the sender whose payload encodes
exactly the unseen ids, provided their joined encoding fits the
MSG_BUF_SIZE send buffer.  (Without the fit proviso, and for advertised
ids longer than ID_LEN - 1 = 127 characters, the parser and strncat
truncate and the IWANT lists ids that were never advertised.) -/
theorem C9_ihave_pull (n : node_t) (msg : gossip_msg_t) (sender : sockaddr_in)
    (now : Nat) (L : List String)
    (hp : parsePayloadIds msg.payload.toList = some L)
    (hfit : (joinQ (L.filter (fun id => !(seen_lookup n id)))).length
      ≤ MSG_BUF_SIZE - 14) :
    (L.filter (fun id => !(seen_lookup n id)) = [] →
      handle_ihave n msg sender now = []) ∧
    (L.filter (fun id => !(seen_lookup n id)) ≠ [] →
      ∃ iw : gossip_msg_t,
        handle_ihave n msg sender now = [(sender, iw)] ∧
        iw.msg_type = "IWANT" ∧
        parsePayloadIds iw.payload.toList
          = some (L.filter (fun id => !(seen_lookup n id)))) := by
  have hB : MSG_BUF_SIZE = 8192 := rfl
  have hwwf : ∀ id ∈ L.filter (fun id => !(seen_lookup n id)),
      id.toList.length ≤ ID_LEN - 1 ∧ ∀ c ∈ id.toList, c ≠ qC :=
    fun id hid => parsePayloadIds_wf hp id (List.mem_of_mem_filter hid)
  constructor
  · intro hw
    rw [handle_ihave, hp]
    dsimp only
    rw [if_pos (by rw [hw]; rfl)]
  · intro hw
    rw [handle_ihave, hp]
    dsimp only
    rw [if_neg (fun hc => hw (by simpa using hc))]
    refine ⟨_, rfl, rfl, ?_⟩
    have hbw : buildWantIds (L.filter (fun id => !(seen_lookup n id)))
        = joinQ (L.filter (fun id => !(seen_lookup n id))) :=
      buildWantIds_eq_joinQ _ hw (by omega)
    rw [toList_mk, hbw]
    rw [take_of_le (by
      simp only [List.length_append]
      have h10 : ((("\x7b \"ids\": [").toList : List Char)).length = 10 := by decide
      have h3 : ((("] \x7d").toList : List Char)).length = 3 := by decide
      omega)]
    exact parse_iwant_payload _ hwwf
theorem C9_ihave_pull_witness :
    ∃ iw : gossip_msg_t,
      handle_ihave s0node ihaveTwo sAddr 5 = [(sAddr, iw)] ∧
      iw.msg_type = "IWANT" ∧
      parsePayloadIds iw.payload.toList = some ["m1", "m2"] := by
  have h := (C9_ihave_pull s0node ihaveTwo sAddr 5 ["m1", "m2"]
    (by decide) (by decide)).2 (by decide)
  have hfil : (["m1", "m2"].filter (fun id => !(seen_lookup s0node id)))
      = ["m1", "m2"] := by decide
  rw [hfil] at h
  exact h

/-- C9 counterexample: an advertised id longer than ID_LEN - 1 = 127
characters is mangled by the scanner, so the IWANT sent back lists two
ids, neither of which is the advertised one. -/
theorem C9_counterexample :
    (handle_ihave s0node ihave130 sAddr 0).map
        (fun p => parsePayloadIds p.2.payload.toList)
      = [some [String.mk (List.replicate 127 'a'), "] \x7d"]] ∧
    String.mk (List.replicate 130 'a') ≠ String.mk (List.replicate 127 'a') ∧
    String.mk (List.replicate 130 'a') ≠ "] \x7d" := by
  exact ⟨by decide, by decide, by decide⟩

end Gossip
